import Mathlib

/-!
# httptransmit: session handshake, session store and relay pipeline

A shallow embedding of `httptransmit.go`.

* Byte slices (`[]uint8`) and Go strings are lists of bytes.
* The session map `map[string]*HttpTransmitSession` is an association list read through
  `List.lookup`; the three map operations the source uses (index, assign, `delete`) and the
  mutation through the stored pointer are `List.lookup`, `Sessions.set`, `Sessions.delete`
  and `Sessions.modify`.
* Everything the package imports is a parameter (`Env`): the cipher `fxms`, base64, `url.Parse`,
  header canonicalisation and the outbound HTTP client.
* `time.Now().Unix()` is an argument of the operation that reads it.
* A handler returns the new relay state and the ordered trace of the calls it made on its
  collaborators: `fxms.Decrypt`, the package function `request`, and the two methods of the
  `http.ResponseWriter`.
* The `http.ResponseWriter` is the one of `net/http`: its `WriteHeader` panics on a status code
  outside `100..999`, before it writes anything, and the panic ends the handler.
* Each handler touches the session map inside one critical section, so a handler is one atomic
  step on the store.
-/

namespace Httptransmit

/-! ## Bytes and the Go library functions used by the package -/

/-- A Go byte slice; also a Go string, which is a byte sequence. -/
abbrev Bytes := List UInt8

/-- The bytes of an ASCII literal. -/
def ascii (s : String) : Bytes := s.toList.map (fun c => c.toNat.toUInt8)

/-- The byte of the newline character. -/
def nl : UInt8 := 10

/-- Go `strings.Split(s, sep)` for a one-byte separator: the pieces of `s` between the
occurrences of `sep`; one more piece than there are occurrences. -/
def strings_Split : Bytes → UInt8 → List Bytes
  | [], _ => [[]]
  | c :: cs, sep =>
    if c = sep then [] :: strings_Split cs sep
    else
      match strings_Split cs sep with
      | [] => [[c]]
      | l :: ls => (c :: l) :: ls

/-- Go `strings.Index(s, substr)`: the index of the first occurrence of `substr` in `s`,
or `-1`. -/
def strings_Index : Bytes → Bytes → Int
  | [], substr => if substr = [] then 0 else -1
  | c :: cs, substr =>
    if substr.isPrefixOf (c :: cs) then 0
    else
      let i := strings_Index cs substr
      if i < 0 then -1 else i + 1

/-- Go `strings.Trim(s, cutset)`: `s` without its leading and trailing bytes that are in
`cutset`. -/
def strings_Trim (s cutset : Bytes) : Bytes :=
  ((s.dropWhile (fun c => decide (c ∈ cutset))).reverse.dropWhile
    (fun c => decide (c ∈ cutset))).reverse

/-- Go `int64` arithmetic wraps: the representative of `x` in `[-2^63, 2^63)`. -/
def wrapInt64 (x : Int) : Int := (x + 2 ^ 63) % 2 ^ 64 - 2 ^ 63

/-! ## The collaborators -/

/-- The second argument of `fxms.Encrypt` and `fxms.Decrypt`. -/
inductive Optimization
  | OptimizeEncryption
  | OptimizeDecryption
  deriving DecidableEq, Repr

/-- The cipher package `github.com/NIR3X/fxms`, a dependency of the relay. `Encrypt` returns
`none` for a non-nil error; `Decrypt` returns the plaintext and the `ok` flag (both callers
discard its error value). -/
structure Fxms where
  HashLen : Nat
  MaskLen : Nat
  KeyLen : Nat
  Encrypt : Bytes → Bytes → Optimization → Option Bytes
  Decrypt : Bytes → Bytes → Optimization → Bytes × Bool

/-- Go `http.Header`: canonical key to values. -/
abbrev Header := List (Bytes × List Bytes)

/-- The part of `*url.URL` the relay reads. -/
structure URL where
  Host : Bytes
  deriving DecidableEq, Repr

/-- The outbound `*http.Request` built by `request`. -/
structure OutRequest where
  Method : Bytes
  URL : Bytes
  Body : Bytes
  Header : Header
  deriving DecidableEq, Repr

/-- The part of `*http.Response` the relay reads: the status code and what `io.ReadAll`
returns for the body (`none` for a read error). -/
structure Response where
  StatusCode : Int
  Body : Option Bytes
  deriving DecidableEq, Repr

/-- The inbound `*http.Request`: its headers and what `io.ReadAll(r.Body)` returns
(`none` for a read error). -/
structure Request where
  Header : Header
  Body : Option Bytes
  deriving DecidableEq, Repr

/-- What the package imports. `none` stands for a non-nil error. -/
structure Env where
  fxms : Fxms
  base64_DecodeString : Bytes → Option Bytes
  url_Parse : Bytes → Option URL
  CanonicalMIMEHeaderKey : Bytes → Bytes
  http_NewRequest : Bytes → Bytes → Bytes → Option OutRequest
  http_Do : OutRequest → Option Response

/-- Go `Header.Get`: the first value stored under the canonical form of `key`, or `""`. -/
def Header.Get (env : Env) (h : Header) (key : Bytes) : Bytes :=
  match h.lookup (env.CanonicalMIMEHeaderKey key) with
  | some (v :: _) => v
  | _ => []

/-- Go `Header.Set`: the canonical form of `key` now holds the single value `value`. -/
def Header.Set (env : Env) (h : Header) (key value : Bytes) : Header :=
  (env.CanonicalMIMEHeaderKey key, [value]) ::
    h.filter (fun p => p.1 != env.CanonicalMIMEHeaderKey key)

/-! ## The trace of a handler -/

/-- A call a handler makes on a collaborator. `WriteHeader` and `Write` are calls on the
`http.ResponseWriter` that returned; `Panic` is a call of `WriteHeader` that panicked, with
nothing written. -/
inductive Event
  | Decrypt (key ciphertext : Bytes)
  | Request (urlAddr method : Bytes) (headers : List Bytes) (data : Bytes) (httpHeaders : Header)
  | WriteHeader (statusCode : Int)
  | Write (data : Bytes)
  | Panic (statusCode : Int)
  deriving DecidableEq, Repr

/-- The check `checkWriteHeaderCode` of `net/http`, made by `WriteHeader` before it writes:
`true` when it panics with `invalid WriteHeader code`. -/
def invalidWriteHeaderCode (code : Int) : Bool :=
  decide (code < 100 ∨ code > 999)

/-- The calls on the `http.ResponseWriter` that wrote to the response, in order. -/
def written (t : List Event) : List Event :=
  t.filter (fun e => match e with
    | Event.WriteHeader _ => true
    | Event.Write _ => true
    | _ => false)

/-- The calls of `request`, in order. -/
def relayed (t : List Event) : List Event :=
  t.filter (fun e => match e with
    | Event.Request _ _ _ _ _ => true
    | _ => false)

/-! ## `request` -/

/-- The body of the loop over `headers` in `request`. -/
def setHeaderLine (env : Env) (h : Header) (header : Bytes) : Header :=
  let index := strings_Index header (ascii ": ")
  if index ≥ 0 then
    Header.Set env h (header.take index.toNat) (header.drop (index.toNat + 2))
  else h

/-- The package function `request`. -/
def request (env : Env) (urlAddr method : Bytes) (headers : List Bytes) (data : Bytes)
    (httpHeaders : Header) : Int × Bytes :=
  match env.http_NewRequest method urlAddr data with
  | none => (0, [])
  | some req =>
    let req := { req with Header := headers.foldl (setHeaderLine env) req.Header }
    let forwardedFor := strings_Trim
      (Header.Get env httpHeaders (ascii "Cf-Connecting-Ip") ++ ascii "," ++
        Header.Get env httpHeaders (ascii "X-Forwarded-For")) (ascii ",")
    let req := { req with Header := Header.Set env req.Header (ascii "X-Forwarded-For") forwardedFor }
    match env.http_Do req with
    | none => (0, [])
    | some resp =>
      match resp.Body with
      | none => (0, [])
      | some respData => (resp.StatusCode, respData)

/-! ## Sessions -/

/-- The struct `HttpTransmitSession`. -/
structure HttpTransmitSession where
  key : Bytes
  lastUpdate : Int
  deriving DecidableEq, Repr

/-- The constructor `NewHttpTransmitSession`; `now` is `time.Now().Unix()`. -/
def NewHttpTransmitSession (now : Int) (key : Bytes) : HttpTransmitSession :=
  { key := key, lastUpdate := now }

/-- The method `updateLastUpdate`; `now` is `time.Now().Unix()`. -/
def HttpTransmitSession.updateLastUpdate (now : Int) (s : HttpTransmitSession) :
    HttpTransmitSession :=
  { s with lastUpdate := now }

/-- The method `getDeltaUpdate`; `now` is `time.Now().Unix()`; the subtraction is `int64`. -/
def HttpTransmitSession.getDeltaUpdate (now : Int) (s : HttpTransmitSession) : Int :=
  wrapInt64 (now - s.lastUpdate)

/-- The map `sessions`. -/
abbrev Sessions := List (Bytes × HttpTransmitSession)

/-- Go `m[k] = v`. -/
def Sessions.set (m : Sessions) (k : Bytes) (v : HttpTransmitSession) : Sessions :=
  (k, v) :: m.filter (fun p => p.1 != k)

/-- Go `delete(m, k)`. -/
def Sessions.delete (m : Sessions) (k : Bytes) : Sessions :=
  m.filter (fun p => p.1 != k)

/-- A mutation of the session stored under `k`, made through the pointer the map holds. -/
def Sessions.modify (m : Sessions) (k : Bytes) (f : HttpTransmitSession → HttpTransmitSession) :
    Sessions :=
  m.map (fun p => if p.1 == k then (p.1, f p.2) else p)

/-- The struct `HttpTransmit` without its mutex and stop channel. -/
structure HttpTransmit where
  whitelistedHosts : List (Bytes × Bool)
  key : Bytes
  maxSessionTimeSecs : Int
  sessions : Sessions
  deriving DecidableEq, Repr

/-- The constructor `NewHttpTransmit`, without the goroutine it starts (see `sweep`). -/
def NewHttpTransmit (env : Env) (whitelistedHosts : List (Bytes × Bool)) (key : Bytes)
    (maxSessionTimeSecs : Int) : Option HttpTransmit :=
  if key.length ≠ env.fxms.KeyLen then none
  else some
    { whitelistedHosts := whitelistedHosts
      key := key
      maxSessionTimeSecs := maxSessionTimeSecs
      sessions := [] }

/-- One visit of the `range` loop of the sweeping goroutine: an entry deleted before it is
reached is not produced; `now` is the clock reading of `getDeltaUpdate` at this visit. -/
def sweepVisit (clock : Bytes → Int) (maxSessionTimeSecs : Int) (m : Sessions)
    (sessionId : Bytes) : Sessions :=
  match m.lookup sessionId with
  | none => m
  | some session =>
    if session.getDeltaUpdate (clock sessionId) ≥ maxSessionTimeSecs then m.delete sessionId
    else m

/-- One pass of the goroutine started by `NewHttpTransmit`: the code between `mtx.Lock()` and
`mtx.Unlock()`. `clock sessionId` is what `time.Now().Unix()` returns when the loop visits
`sessionId`. -/
def sweep (clock : Bytes → Int) (ht : HttpTransmit) : HttpTransmit :=
  let maxSessionTimeSecs := ht.maxSessionTimeSecs
  { ht with sessions :=
      (ht.sessions.map Prod.fst).foldl (sweepVisit clock maxSessionTimeSecs) ht.sessions }

/-! ## The handlers -/

/-- The method `HandleConnect`; `now` is the clock reading of `NewHttpTransmitSession`. -/
def HandleConnect (env : Env) (ht : HttpTransmit) (now : Int) (r : Request) :
    HttpTransmit × List Event :=
  let sessionKeyEncB64 := Header.Get env r.Header (ascii "HT-Session-Key")
  match env.base64_DecodeString sessionKeyEncB64 with
  | none => (ht, [])
  | some sessionKeyEnc =>
    if sessionKeyEnc.length < env.fxms.HashLen + env.fxms.MaskLen + env.fxms.KeyLen then (ht, [])
    else
      let dec := env.fxms.Decrypt ht.key sessionKeyEnc Optimization.OptimizeDecryption
      let sessionKey := dec.1
      let t := [Event.Decrypt ht.key sessionKeyEnc]
      if !dec.2 then (ht, t)
      else if sessionKey.length < env.fxms.KeyLen then (ht, t)
      else
        let sessionId := Header.Get env r.Header (ascii "HT-Session-ID")
        let ht :=
          match ht.sessions.lookup sessionId with
          | some _ => ht
          | none =>
            { ht with sessions := ht.sessions.set sessionId (NewHttpTransmitSession now sessionKey) }
        match env.fxms.Encrypt sessionKey [] Optimization.OptimizeEncryption with
        | some data => (ht, t ++ [Event.Write data])
        | none => (ht, t)

/-- The method `HandleTransmit`; `now` is the clock reading of `updateLastUpdate`. The status
`http.StatusUnauthorized` is 401, which `WriteHeader` accepts. -/
def HandleTransmit (env : Env) (ht : HttpTransmit) (now : Int) (r : Request) :
    HttpTransmit × List Event :=
  let sessionId := Header.Get env r.Header (ascii "HT-Session-ID")
  match ht.sessions.lookup sessionId with
  | none => (ht, [Event.WriteHeader 401])
  | some session0 =>
    let session := session0.updateLastUpdate now
    let ht :=
      { ht with sessions := ht.sessions.modify sessionId (HttpTransmitSession.updateLastUpdate now) }
    let headersEncB64 := Header.Get env r.Header (ascii "HT-Session-Headers")
    match env.base64_DecodeString headersEncB64 with
    | none => (ht, [])
    | some headersEnc =>
      if headersEnc.length < env.fxms.HashLen + env.fxms.MaskLen then (ht, [])
      else
        let hdec := env.fxms.Decrypt session.key headersEnc Optimization.OptimizeDecryption
        let headersDec := hdec.1
        let t := [Event.Decrypt session.key headersEnc]
        if !hdec.2 then (ht, t)
        else
          let headersLines := strings_Split headersDec nl
          if headersLines.length < 2 then (ht, t)
          else
            let urlAddr := headersLines.getD 0 []
            let method := headersLines.getD 1 []
            let headers := headersLines.drop 2
            match env.url_Parse urlAddr with
            | none => (ht, t)
            | some urlParsed =>
              if !(ht.whitelistedHosts.lookup urlParsed.Host).isSome then (ht, t)
              else
                match r.Body with
                | none => (ht, t)
                | some dataEnc =>
                  let ddec := env.fxms.Decrypt session.key dataEnc Optimization.OptimizeDecryption
                  let data := ddec.1
                  let t := t ++ [Event.Decrypt session.key dataEnc]
                  if !ddec.2 then (ht, t)
                  else
                    let resp := request env urlAddr method headers data r.Header
                    let t := t ++ [Event.Request urlAddr method headers data r.Header]
                    if invalidWriteHeaderCode resp.1 then (ht, t ++ [Event.Panic resp.1])
                    else
                      let t := t ++ [Event.WriteHeader resp.1]
                      match env.fxms.Encrypt session.key resp.2
                          Optimization.OptimizeEncryption with
                      | some data => (ht, t ++ [Event.Write data])
                      | none => (ht, t)

/-! ## Vocabulary of the statements -/

/-- The session id a request names. -/
def sessionIdOf (env : Env) (r : Request) : Bytes :=
  Header.Get env r.Header (ascii "HT-Session-ID")

/-- The handshake `r` passes the four checks of `HandleConnect` (base64, blob length,
authenticated decryption under the master key, key length) and unwraps to `sessionKey`. -/
def ConnectValid (env : Env) (ht : HttpTransmit) (r : Request) (sessionKey : Bytes) : Prop :=
  ∃ sessionKeyEnc,
    env.base64_DecodeString (Header.Get env r.Header (ascii "HT-Session-Key")) =
      some sessionKeyEnc ∧
    ¬ sessionKeyEnc.length < env.fxms.HashLen + env.fxms.MaskLen + env.fxms.KeyLen ∧
    env.fxms.Decrypt ht.key sessionKeyEnc Optimization.OptimizeDecryption = (sessionKey, true) ∧
    ¬ sessionKey.length < env.fxms.KeyLen

/-- The handshake `r` fails one of the four checks of `HandleConnect`. -/
def ConnectInvalid (env : Env) (ht : HttpTransmit) (r : Request) : Prop :=
  env.base64_DecodeString (Header.Get env r.Header (ascii "HT-Session-Key")) = none ∨
  ∃ sessionKeyEnc,
    env.base64_DecodeString (Header.Get env r.Header (ascii "HT-Session-Key")) =
      some sessionKeyEnc ∧
    (sessionKeyEnc.length < env.fxms.HashLen + env.fxms.MaskLen + env.fxms.KeyLen ∨
      (env.fxms.Decrypt ht.key sessionKeyEnc Optimization.OptimizeDecryption).2 = false ∨
      (env.fxms.Decrypt ht.key sessionKeyEnc Optimization.OptimizeDecryption).1.length <
        env.fxms.KeyLen)

/-- The relay state after `updateLastUpdate` on the session of `r`. -/
def touched (env : Env) (ht : HttpTransmit) (now : Int) (r : Request) : HttpTransmit :=
  { ht with sessions :=
      ht.sessions.modify (sessionIdOf env r) (HttpTransmitSession.updateLastUpdate now) }

/-- The transmit request `r` passes every check of `HandleTransmit`: the session is known as
`session0`, the header blob decodes to `headersEnc`, is long enough and authenticates under the
session key, its plaintext splits into `urlAddr`, `method` and the lines `headers`, `urlAddr`
parses to `urlParsed` whose host is a key of the whitelist, the body is read as `dataEnc` and
authenticates to `data`. -/
def TransmitValid (env : Env) (ht : HttpTransmit) (r : Request) (session0 : HttpTransmitSession)
    (headersEnc urlAddr method : Bytes) (headers : List Bytes) (urlParsed : URL)
    (dataEnc data : Bytes) : Prop :=
  ht.sessions.lookup (sessionIdOf env r) = some session0 ∧
  env.base64_DecodeString (Header.Get env r.Header (ascii "HT-Session-Headers")) =
    some headersEnc ∧
  ¬ headersEnc.length < env.fxms.HashLen + env.fxms.MaskLen ∧
  (env.fxms.Decrypt session0.key headersEnc Optimization.OptimizeDecryption).2 = true ∧
  strings_Split (env.fxms.Decrypt session0.key headersEnc Optimization.OptimizeDecryption).1 nl =
    urlAddr :: method :: headers ∧
  env.url_Parse urlAddr = some urlParsed ∧
  (ht.whitelistedHosts.lookup urlParsed.Host).isSome = true ∧
  r.Body = some dataEnc ∧
  env.fxms.Decrypt session0.key dataEnc Optimization.OptimizeDecryption = (data, true)

/-- The request `request` hands to the HTTP client: the request made by `http.NewRequest` with
the header lines and the forwarding header set. -/
def outbound (env : Env) (req : OutRequest) (headers : List Bytes) (httpHeaders : Header) :
    OutRequest :=
  let forwardedFor := strings_Trim
    (Header.Get env httpHeaders (ascii "Cf-Connecting-Ip") ++ ascii "," ++
      Header.Get env httpHeaders (ascii "X-Forwarded-For")) (ascii ",")
  { req with
    Header :=
      Header.Set env (headers.foldl (setHeaderLine env) req.Header) (ascii "X-Forwarded-For")
        forwardedFor }

/-- The outbound call fails: the request cannot be built, the client returns an error, or the
response body cannot be read. -/
def RelayFails (env : Env) (urlAddr method : Bytes) (headers : List Bytes) (data : Bytes)
    (httpHeaders : Header) : Prop :=
  env.http_NewRequest method urlAddr data = none ∨
  ∃ req, env.http_NewRequest method urlAddr data = some req ∧
    (env.http_Do (outbound env req headers httpHeaders) = none ∨
      ∃ resp, env.http_Do (outbound env req headers httpHeaders) = some resp ∧ resp.Body = none)

/-- Line 0 of the header blob `headersEnc` decrypted under `key`. -/
def destinationOf (env : Env) (key headersEnc : Bytes) : Bytes :=
  (strings_Split (env.fxms.Decrypt key headersEnc Optimization.OptimizeDecryption).1 nl).getD 0 []

/-- The header blob of `r` is garbage under the session key `key`: it is not valid base64, is
shorter than `HashLen + MaskLen`, does not authenticate, or decrypts to fewer than two lines. -/
def HeadersGarbage (env : Env) (r : Request) (key : Bytes) : Prop :=
  env.base64_DecodeString (Header.Get env r.Header (ascii "HT-Session-Headers")) = none ∨
  ∃ headersEnc,
    env.base64_DecodeString (Header.Get env r.Header (ascii "HT-Session-Headers")) =
      some headersEnc ∧
    (headersEnc.length < env.fxms.HashLen + env.fxms.MaskLen ∨
      (env.fxms.Decrypt key headersEnc Optimization.OptimizeDecryption).2 = false ∨
      (strings_Split (env.fxms.Decrypt key headersEnc Optimization.OptimizeDecryption).1
        nl).length < 2)

/-- The relay states reachable from the state made by `NewHttpTransmit` by handshakes,
transmit requests and sweep passes, each at any clock reading and for any request. -/
inductive Reachable (env : Env) : HttpTransmit → Prop
  | init (whitelistedHosts : List (Bytes × Bool)) (key : Bytes) (maxSessionTimeSecs : Int)
      (ht : HttpTransmit)
      (h : NewHttpTransmit env whitelistedHosts key maxSessionTimeSecs = some ht) :
      Reachable env ht
  | connect (ht : HttpTransmit) (now : Int) (r : Request) (h : Reachable env ht) :
      Reachable env (HandleConnect env ht now r).1
  | transmit (ht : HttpTransmit) (now : Int) (r : Request) (h : Reachable env ht) :
      Reachable env (HandleTransmit env ht now r).1
  | sweep (ht : HttpTransmit) (clock : Bytes → Int) (h : Reachable env ht) :
      Reachable env (sweep clock ht)

/-- Every stored key has at least `KeyLen` bytes. -/
def KeysLongEnough (env : Env) (ht : HttpTransmit) : Prop :=
  ∀ p ∈ ht.sessions, env.fxms.KeyLen ≤ p.2.key.length

/-- The separator `": "` of a header line. -/
def colonSpace : Bytes := [58, 32]

/-! ## A concrete environment for running the handlers -/

/-- A small cipher: a ciphertext is a tag byte (the first key byte), a mask byte, then the
plaintext. -/
def demoFxms : Fxms :=
  { HashLen := 1
    MaskLen := 1
    KeyLen := 2
    Encrypt := fun key plaintext _ => some (key.headD 0 :: 0 :: plaintext)
    Decrypt := fun key ciphertext _ =>
      match ciphertext with
      | tag :: _ :: plaintext => (plaintext, tag == key.headD 0)
      | _ => ([], false) }

/-- The host of `scheme://host/path`. -/
def demoHost (u : Bytes) : Bytes :=
  ((u.dropWhile (fun c => c != 47)).drop 2).takeWhile (fun c => c != 47)

/-- An environment with `demoFxms`, an identity transport encoding and a destination that
answers every request with status 200 and the body `ok`. -/
def demoEnv : Env :=
  { fxms := demoFxms
    base64_DecodeString := fun s => some s
    url_Parse := fun u => some { Host := demoHost u }
    CanonicalMIMEHeaderKey := fun k => k
    http_NewRequest := fun method urlAddr body =>
      some { Method := method, URL := urlAddr, Body := body, Header := [] }
    http_Do := fun _ => some { StatusCode := 200, Body := some (ascii "ok") } }

/-- A relay with master key `[7, 7]`, one whitelisted host and no session. -/
def demoRelay : HttpTransmit :=
  { whitelistedHosts := [(ascii "allowed.example", true)]
    key := [7, 7]
    maxSessionTimeSecs := 60
    sessions := [] }

/-- A handshake for session `s1` proposing the session key `key`. -/
def demoConnect (key : Bytes) : Request :=
  { Header :=
      [(ascii "HT-Session-Key", [7 :: 0 :: key]),
       (ascii "HT-Session-ID", [ascii "s1"])]
    Body := some [] }

/-- A transmit request on session `s1` carrying the encrypted header blob and body. -/
def demoTransmit (headersEnc : Bytes) (body : Bytes) : Request :=
  { Header :=
      [(ascii "HT-Session-ID", [ascii "s1"]),
       (ascii "HT-Session-Headers", [headersEnc])]
    Body := some body }

/-- A relay that already holds session `s1` with key `[1, 2]`, created at time 100. -/
def demoRelay1 : HttpTransmit :=
  { demoRelay with sessions := [(ascii "s1", { key := [1, 2], lastUpdate := 100 })] }

/-- The demo environment with an unreachable destination. -/
def demoEnvDown : Env := { demoEnv with http_Do := fun _ => none }

/-- The transmit request of the end-to-end scenario: `GET http://allowed.example/path` with an
empty payload, on session `s1` with key `[1, 2]`. -/
def demoGet : Request :=
  demoTransmit (1 :: 0 :: ascii "http://allowed.example/path\nGET\n") [1, 0]

/-- The end-to-end scenario with the host written `Allowed.example`, which differs from the
whitelisted `allowed.example` in the case of one letter. -/
def demoGetOtherCase : Request :=
  demoTransmit (1 :: 0 :: ascii "http://Allowed.example/path\nGET\n") [1, 0]

/-- A relay with a session last active at time 100 and one last active at time 30. -/
def demoRelay2 : HttpTransmit :=
  { demoRelay with
    sessions :=
      [(ascii "s1", { key := [1, 2], lastUpdate := 100 }),
       (ascii "s2", { key := [3, 4], lastUpdate := 30 })] }

/-- The request `http.NewRequest` makes in the demo environment for the end-to-end scenario. -/
def demoOut : OutRequest :=
  { Method := ascii "GET", URL := ascii "http://allowed.example/path", Body := [], Header := [] }

/-- A transmit request on session `s1` whose decrypted header text `GET` has no newline. -/
def demoNoNewline : Request := demoTransmit (1 :: 0 :: ascii "GET") [1, 0]

/-! ## The session map -/

theorem lookup_cons_self (m : Sessions) (k : Bytes) (v : HttpTransmitSession) :
    List.lookup k ((k, v) :: m) = some v := by
  simp [List.lookup]

theorem lookup_cons_other (m : Sessions) (k t : Bytes) (v : HttpTransmitSession) (h : t ≠ k) :
    List.lookup t ((k, v) :: m) = List.lookup t m := by
  have ht : (t == k) = false := by simpa using h
  simp [List.lookup, ht]

theorem lookup_filter_self (m : Sessions) (k : Bytes) :
    (m.filter (fun p => p.1 != k)).lookup k = none := by
  induction m with
  | nil => rfl
  | cons p m ih =>
    obtain ⟨a, b⟩ := p
    by_cases h : a = k
    · simp [List.filter_cons, h, ih]
    · have hf : ((a, b).1 != k) = true := by simpa using h
      rw [List.filter_cons, if_pos hf, lookup_cons_other _ _ _ _ (fun e => h e.symm)]
      exact ih

theorem lookup_filter_other (m : Sessions) (k t : Bytes) (h : t ≠ k) :
    (m.filter (fun p => p.1 != k)).lookup t = m.lookup t := by
  induction m with
  | nil => rfl
  | cons p m ih =>
    obtain ⟨a, b⟩ := p
    by_cases hk : a = k
    · have hf : ¬ (((a, b).1 != k) = true) := by simp [hk]
      rw [List.filter_cons, if_neg hf, ih, lookup_cons_other _ _ _ _ (hk ▸ h)]
    · have hf : ((a, b).1 != k) = true := by simpa using hk
      rw [List.filter_cons, if_pos hf]
      by_cases hta : t = a
      · subst hta
        rw [lookup_cons_self, lookup_cons_self]
      · rw [lookup_cons_other _ _ _ _ hta, lookup_cons_other _ _ _ _ hta, ih]

theorem lookup_set_self (m : Sessions) (k : Bytes) (v : HttpTransmitSession) :
    (m.set k v).lookup k = some v :=
  lookup_cons_self _ k v

theorem lookup_set_other (m : Sessions) (k t : Bytes) (v : HttpTransmitSession) (h : t ≠ k) :
    (m.set k v).lookup t = m.lookup t := by
  unfold Sessions.set
  rw [lookup_cons_other _ _ _ _ h]
  exact lookup_filter_other m k t h

theorem lookup_delete_self (m : Sessions) (k : Bytes) : (m.delete k).lookup k = none :=
  lookup_filter_self m k

theorem lookup_delete_other (m : Sessions) (k t : Bytes) (h : t ≠ k) :
    (m.delete k).lookup t = m.lookup t :=
  lookup_filter_other m k t h

theorem modify_cons_self (m : Sessions) (k : Bytes) (v : HttpTransmitSession)
    (f : HttpTransmitSession → HttpTransmitSession) :
    Sessions.modify ((k, v) :: m) k f = (k, f v) :: Sessions.modify m k f := by
  simp [Sessions.modify]

theorem modify_cons_other (m : Sessions) (k a : Bytes) (v : HttpTransmitSession)
    (f : HttpTransmitSession → HttpTransmitSession) (h : a ≠ k) :
    Sessions.modify ((a, v) :: m) k f = (a, v) :: Sessions.modify m k f := by
  simp [Sessions.modify, h]

theorem lookup_modify_self (m : Sessions) (k : Bytes)
    (f : HttpTransmitSession → HttpTransmitSession) :
    (m.modify k f).lookup k = (m.lookup k).map f := by
  induction m with
  | nil => rfl
  | cons p m ih =>
    obtain ⟨a, b⟩ := p
    by_cases hk : a = k
    · subst hk
      rw [modify_cons_self, lookup_cons_self, lookup_cons_self]
      rfl
    · have hka : k ≠ a := fun e => hk e.symm
      rw [modify_cons_other _ _ _ _ _ hk, lookup_cons_other _ _ _ _ hka,
        lookup_cons_other _ _ _ _ hka, ih]

theorem lookup_modify_other (m : Sessions) (k t : Bytes)
    (f : HttpTransmitSession → HttpTransmitSession) (h : t ≠ k) :
    (m.modify k f).lookup t = m.lookup t := by
  induction m with
  | nil => rfl
  | cons p m ih =>
    obtain ⟨a, b⟩ := p
    by_cases hk : a = k
    · subst hk
      rw [modify_cons_self, lookup_cons_other _ _ _ _ h, lookup_cons_other _ _ _ _ h, ih]
    · rw [modify_cons_other _ _ _ _ _ hk]
      by_cases hta : t = a
      · subst hta
        rw [lookup_cons_self, lookup_cons_self]
      · rw [lookup_cons_other _ _ _ _ hta, lookup_cons_other _ _ _ _ hta, ih]

theorem modify_keys (m : Sessions) (k : Bytes) (f : HttpTransmitSession → HttpTransmitSession) :
    (m.modify k f).map Prod.fst = m.map Prod.fst := by
  induction m with
  | nil => rfl
  | cons p m ih =>
    obtain ⟨a, b⟩ := p
    by_cases hk : a = k
    · subst hk
      rw [modify_cons_self, List.map_cons, List.map_cons, ih]
    · rw [modify_cons_other _ _ _ _ _ hk, List.map_cons, List.map_cons, ih]

theorem filter_key_of_lookup_none (m : Sessions) (k : Bytes) (h : m.lookup k = none) :
    m.filter (fun p => p.1 == k) = [] := by
  induction m with
  | nil => rfl
  | cons p m ih =>
    obtain ⟨a, b⟩ := p
    by_cases hk : k = a
    · subst hk
      rw [lookup_cons_self] at h
      exact absurd h (by simp)
    · rw [lookup_cons_other _ _ _ _ hk] at h
      have hf : ¬ (((a, b).1 == k) = true) := by simpa using fun e => hk e.symm
      rw [List.filter_cons, if_neg hf]
      exact ih h

/-! ## The handshake -/

/-- The store after a handshake that passes the checks. -/
theorem HandleConnect_valid_store (env : Env) (ht : HttpTransmit) (now : Int) (r : Request)
    (sessionKey : Bytes) (hv : ConnectValid env ht r sessionKey) :
    (HandleConnect env ht now r).1 =
      match ht.sessions.lookup (sessionIdOf env r) with
      | some _ => ht
      | none =>
        { ht with sessions :=
            ht.sessions.set (sessionIdOf env r) (NewHttpTransmitSession now sessionKey) } := by
  obtain ⟨enc, h1, h2, h3, h4⟩ := hv
  unfold HandleConnect sessionIdOf
  simp only [h1, h2, h3, h4, if_false, Bool.not_true, Bool.false_eq_true]
  cases env.fxms.Encrypt sessionKey [] Optimization.OptimizeEncryption <;> rfl

/-- The response after a handshake that passes the checks. -/
theorem HandleConnect_valid_written (env : Env) (ht : HttpTransmit) (now : Int) (r : Request)
    (sessionKey : Bytes) (hv : ConnectValid env ht r sessionKey) :
    written (HandleConnect env ht now r).2 =
      match env.fxms.Encrypt sessionKey [] Optimization.OptimizeEncryption with
      | some data => [Event.Write data]
      | none => [] := by
  obtain ⟨enc, h1, h2, h3, h4⟩ := hv
  unfold HandleConnect
  simp only [h1, h2, h3, h4, if_false, Bool.not_true, Bool.false_eq_true]
  cases env.fxms.Encrypt sessionKey [] Optimization.OptimizeEncryption <;> rfl

/-- The outcome of a handshake that fails a check. -/
theorem HandleConnect_invalid (env : Env) (ht : HttpTransmit) (now : Int) (r : Request)
    (hf : ConnectInvalid env ht r) :
    (HandleConnect env ht now r).1 = ht ∧ written (HandleConnect env ht now r).2 = [] := by
  unfold HandleConnect
  rcases hf with h1 | ⟨enc, h1, h2⟩
  · simp only [h1]
    exact ⟨trivial, rfl⟩
  · simp only [h1]
    by_cases hl : enc.length < env.fxms.HashLen + env.fxms.MaskLen + env.fxms.KeyLen
    · rw [if_pos hl]
      exact ⟨rfl, rfl⟩
    · rw [if_neg hl]
      rcases h2 with h2 | h2 | h2
      · exact absurd h2 hl
      · simp only [h2, Bool.not_false, if_true]
        exact ⟨trivial, rfl⟩
      · cases hok : (env.fxms.Decrypt ht.key enc Optimization.OptimizeDecryption).2
        · simp only [Bool.not_false, if_true]
          exact ⟨trivial, rfl⟩
        · simp only [Bool.not_true, Bool.false_eq_true, if_false, if_pos h2]
          exact ⟨trivial, rfl⟩

theorem demoConnect_valid (ht : HttpTransmit) (hk : ht.key = [7, 7]) (a b : UInt8) :
    ConnectValid demoEnv ht (demoConnect [a, b]) [a, b] := by
  refine ⟨[7, 0, a, b], rfl, by simp [demoEnv, demoFxms], ?_, by simp [demoEnv, demoFxms]⟩
  rw [hk]
  rfl

/-- C1. A handshake that passes validation with key `K` creates the session when the id is
absent: the store then holds exactly one entry for the id, with key `K`, and every other id is
as before. When the id is present the relay state is left as it was: the stored key and
`lastUpdate` of the id and every other session are unchanged, whatever key was proposed. -/
theorem handshake_create_if_absent (env : Env) (ht : HttpTransmit) (now : Int) (r : Request)
    (K : Bytes) (hv : ConnectValid env ht r K) :
    (ht.sessions.lookup (sessionIdOf env r) = none →
      (HandleConnect env ht now r).1.sessions.lookup (sessionIdOf env r) =
        some { key := K, lastUpdate := now } ∧
      ((HandleConnect env ht now r).1.sessions.filter
        (fun p => p.1 == sessionIdOf env r)).length = 1 ∧
      ∀ t, t ≠ sessionIdOf env r →
        (HandleConnect env ht now r).1.sessions.lookup t = ht.sessions.lookup t) ∧
    (∀ s0, ht.sessions.lookup (sessionIdOf env r) = some s0 →
      (HandleConnect env ht now r).1 = ht ∧
      (HandleConnect env ht now r).1.sessions.lookup (sessionIdOf env r) = some s0) := by
  have hs := HandleConnect_valid_store env ht now r K hv
  constructor
  · intro habs
    rw [habs] at hs
    rw [hs]
    refine ⟨lookup_set_self _ _ _, ?_, fun t ht' => lookup_set_other _ _ _ _ ht'⟩
    show (List.filter (fun p => p.1 == sessionIdOf env r)
      ((sessionIdOf env r, NewHttpTransmitSession now K) ::
        ht.sessions.filter (fun p => p.1 != sessionIdOf env r))).length = 1
    have hnone := filter_key_of_lookup_none _ _ (lookup_filter_self ht.sessions (sessionIdOf env r))
    rw [List.filter_cons, if_pos (by simp), hnone]
    rfl
  · intro s0 hpres
    rw [hpres] at hs
    rw [hs]
    exact ⟨rfl, hpres⟩

/-- On the demo relay a first handshake for `s1` with key `[1, 2]` stores `[1, 2]`, and a second
handshake for `s1` with key `[3, 4]` leaves the session created at time 100 as it was. -/
theorem handshake_create_if_absent_witness :
    (HandleConnect demoEnv demoRelay 100 (demoConnect [1, 2])).1.sessions.lookup (ascii "s1") =
        some { key := [1, 2], lastUpdate := 100 } ∧
    (HandleConnect demoEnv demoRelay1 200 (demoConnect [3, 4])).1.sessions.lookup (ascii "s1") =
        some { key := [1, 2], lastUpdate := 100 } :=
  ⟨((handshake_create_if_absent demoEnv demoRelay 100 (demoConnect [1, 2]) [1, 2]
      (demoConnect_valid demoRelay rfl 1 2)).1 rfl).1,
   ((handshake_create_if_absent demoEnv demoRelay1 200 (demoConnect [3, 4]) [3, 4]
      (demoConnect_valid demoRelay1 rfl 3 4)).2 { key := [1, 2], lastUpdate := 100 } rfl).2⟩

/-- C7. A handshake that fails any of the four checks writes nothing and leaves the relay state
as it was; the outcome does not depend on which check failed. -/
theorem handshake_failure_silent (env : Env) (ht : HttpTransmit) (now : Int) (r : Request)
    (hf : ConnectInvalid env ht r) :
    (HandleConnect env ht now r).1 = ht ∧ written (HandleConnect env ht now r).2 = [] :=
  HandleConnect_invalid env ht now r hf

/-- A handshake whose blob is too short, one whose tag does not authenticate and one whose key
is too short, each on the demo relay. -/
theorem handshake_failure_silent_witness :
    ((HandleConnect demoEnv demoRelay 100 (demoConnect [])).1 = demoRelay ∧
      written (HandleConnect demoEnv demoRelay 100 (demoConnect [])).2 = []) ∧
    ((HandleConnect demoEnv demoRelay1 100
        { Header := [(ascii "HT-Session-Key", [[9, 0, 1, 2]])], Body := none }).1 = demoRelay1 ∧
      written (HandleConnect demoEnv demoRelay1 100
        { Header := [(ascii "HT-Session-Key", [[9, 0, 1, 2]])], Body := none }).2 = []) :=
  ⟨handshake_failure_silent demoEnv demoRelay 100 (demoConnect [])
      (Or.inr ⟨[7, 0], rfl, Or.inl (by decide)⟩),
   handshake_failure_silent demoEnv demoRelay1 100
      { Header := [(ascii "HT-Session-Key", [[9, 0, 1, 2]])], Body := none }
      (Or.inr ⟨[9, 0, 1, 2], rfl, Or.inr (Or.inl rfl)⟩)⟩

/-- C6 as stated fails: on a relay that holds session `s1` with key `[1, 2]`, a handshake for
`s1` that passes validation with key `[3, 4]` leaves `[1, 2]` in the store and answers with the
encryption of the empty payload under `[3, 4]`, which is not its encryption under `[1, 2]`. -/
theorem handshake_response_key_counterexample :
    ConnectValid demoEnv demoRelay1 (demoConnect [3, 4]) [3, 4] ∧
    (HandleConnect demoEnv demoRelay1 200 (demoConnect [3, 4])).1.sessions.lookup (ascii "s1") =
      some { key := [1, 2], lastUpdate := 100 } ∧
    demoEnv.fxms.Encrypt [1, 2] [] Optimization.OptimizeEncryption = some [1, 0] ∧
    written (HandleConnect demoEnv demoRelay1 200 (demoConnect [3, 4])).2 = [Event.Write [3, 0]] ∧
    written (HandleConnect demoEnv demoRelay1 200 (demoConnect [3, 4])).2 ≠ [Event.Write [1, 0]] :=
  ⟨⟨[7, 0, 3, 4], rfl, by decide, rfl, by decide⟩, by decide, rfl, by decide, by decide⟩

/-- C6, amended. A handshake that passes validation answers with the encryption of the empty
payload under the key `K` unwrapped from that request, and with nothing when that encryption
returns an error. `K` is the key the store holds for the id afterwards when the id was absent
before the handshake, or present with the key `K`. -/
theorem handshake_response_under_proposed_key (env : Env) (ht : HttpTransmit) (now : Int)
    (r : Request) (K : Bytes) (hv : ConnectValid env ht r K) :
    written (HandleConnect env ht now r).2 =
      (match env.fxms.Encrypt K [] Optimization.OptimizeEncryption with
        | some data => [Event.Write data]
        | none => []) ∧
    (ht.sessions.lookup (sessionIdOf env r) = none →
      (HandleConnect env ht now r).1.sessions.lookup (sessionIdOf env r) =
        some { key := K, lastUpdate := now }) ∧
    (∀ s0, ht.sessions.lookup (sessionIdOf env r) = some s0 → s0.key = K →
      ((HandleConnect env ht now r).1.sessions.lookup (sessionIdOf env r)).map
        HttpTransmitSession.key = some K) := by
  refine ⟨HandleConnect_valid_written env ht now r K hv, ?_, ?_⟩
  · intro habs
    have hs := HandleConnect_valid_store env ht now r K hv
    rw [habs] at hs
    rw [hs]
    exact lookup_set_self _ _ _
  · intro s0 hpres hk
    have hs := HandleConnect_valid_store env ht now r K hv
    rw [hpres] at hs
    rw [hs, hpres, ← hk]
    rfl

/-- The first handshake for `s1` on the demo relay is answered with the encryption of the empty
payload under the proposed key `[1, 2]`. -/
theorem handshake_response_under_proposed_key_witness :
    written (HandleConnect demoEnv demoRelay 100 (demoConnect [1, 2])).2 = [Event.Write [1, 0]] :=
  (handshake_response_under_proposed_key demoEnv demoRelay 100 (demoConnect [1, 2]) [1, 2]
    (demoConnect_valid demoRelay rfl 1 2)).1

/-! ## The transmit handler -/

/-- A transmit request for an unknown session is answered with status 401. -/
theorem HandleTransmit_unknown (env : Env) (ht : HttpTransmit) (now : Int) (r : Request)
    (h : ht.sessions.lookup (sessionIdOf env r) = none) :
    HandleTransmit env ht now r = (ht, [Event.WriteHeader 401]) := by
  unfold sessionIdOf at h
  unfold HandleTransmit
  simp only [h]

/-- A transmit request for a known session changes the relay state by `updateLastUpdate`
only. -/
theorem HandleTransmit_store (env : Env) (ht : HttpTransmit) (now : Int) (r : Request)
    (session0 : HttpTransmitSession) (h : ht.sessions.lookup (sessionIdOf env r) = some session0) :
    (HandleTransmit env ht now r).1 = touched env ht now r := by
  unfold sessionIdOf at h
  unfold HandleTransmit touched sessionIdOf
  simp only [h]
  repeat (first | rfl | split)

/-- The trace of a transmit request that passes every check: the two decryptions, the call
of `request`, then the panic of `WriteHeader` on a status outside `100..999`, or else
`WriteHeader` and the `Write` of the encrypted body. -/
theorem HandleTransmit_valid_trace (env : Env) (ht : HttpTransmit) (now : Int) (r : Request)
    (session0 : HttpTransmitSession) (headersEnc urlAddr method : Bytes) (headers : List Bytes)
    (urlParsed : URL) (dataEnc data : Bytes)
    (hv : TransmitValid env ht r session0 headersEnc urlAddr method headers urlParsed dataEnc
      data) :
    (HandleTransmit env ht now r).2 =
      [Event.Decrypt session0.key headersEnc,
       Event.Decrypt session0.key dataEnc,
       Event.Request urlAddr method headers data r.Header] ++
      (if invalidWriteHeaderCode (request env urlAddr method headers data r.Header).1 = true then
        [Event.Panic (request env urlAddr method headers data r.Header).1]
      else
        Event.WriteHeader (request env urlAddr method headers data r.Header).1 ::
        (match env.fxms.Encrypt session0.key
            (request env urlAddr method headers data r.Header).2
            Optimization.OptimizeEncryption with
          | some body => [Event.Write body]
          | none => [])) := by
  obtain ⟨h1, h2, h3, h4, h5, h6, h7, h8, h9⟩ := hv
  unfold sessionIdOf at h1
  unfold HandleTransmit
  simp only [h1, h2, h3, h4, h5, h6, h7, h8, h9, HttpTransmitSession.updateLastUpdate,
    if_false, Bool.not_true, Bool.false_eq_true, List.length_cons, List.getD_cons_zero,
    List.getD_cons_succ, List.drop_succ_cons, List.drop_zero]
  have hlen : ¬ (headers.length + 1 + 1 < 2) := by omega
  simp only [hlen, if_false]
  cases hinv : invalidWriteHeaderCode (request env urlAddr method headers data r.Header).1
  · simp only [Bool.false_eq_true, if_false]
    cases env.fxms.Encrypt session0.key (request env urlAddr method headers data r.Header).2
      Optimization.OptimizeEncryption <;> rfl
  · simp only [if_true]
    rfl

/-- A transmit request that passes every check calls `request` once, with the first line, the
second line and the remaining lines of the decrypted header text. -/
theorem HandleTransmit_valid_relayed (env : Env) (ht : HttpTransmit) (now : Int) (r : Request)
    (session0 : HttpTransmitSession) (headersEnc urlAddr method : Bytes) (headers : List Bytes)
    (urlParsed : URL) (dataEnc data : Bytes)
    (hv : TransmitValid env ht r session0 headersEnc urlAddr method headers urlParsed dataEnc
      data) :
    relayed (HandleTransmit env ht now r).2 =
      [Event.Request urlAddr method headers data r.Header] := by
  rw [HandleTransmit_valid_trace env ht now r session0 headersEnc urlAddr method headers
    urlParsed dataEnc data hv]
  cases hinv : invalidWriteHeaderCode (request env urlAddr method headers data r.Header).1
  · simp only [Bool.false_eq_true, if_false]
    cases env.fxms.Encrypt session0.key (request env urlAddr method headers data r.Header).2
      Optimization.OptimizeEncryption <;> rfl
  · simp only [if_true]
    rfl

/-- What `request` returns once `http.NewRequest` has made the request `req`: the outcome of
the HTTP client on `req` with the header lines and the forwarding header set. -/
theorem request_outbound (env : Env) (urlAddr method : Bytes) (headers : List Bytes)
    (data : Bytes) (httpHeaders : Header) (req : OutRequest)
    (h : env.http_NewRequest method urlAddr data = some req) :
    request env urlAddr method headers data httpHeaders =
      match env.http_Do (outbound env req headers httpHeaders) with
      | none => (0, [])
      | some resp =>
        match resp.Body with
        | none => (0, [])
        | some respData => (resp.StatusCode, respData) := by
  unfold request outbound
  simp only [h]

/-- A transmit request for a known session either passes every check, or writes nothing and
does not reach `request`. -/
theorem HandleTransmit_known_cases (env : Env) (ht : HttpTransmit) (now : Int) (r : Request)
    (session0 : HttpTransmitSession)
    (h1 : ht.sessions.lookup (sessionIdOf env r) = some session0) :
    (written (HandleTransmit env ht now r).2 = [] ∧ relayed (HandleTransmit env ht now r).2 = []) ∨
    ∃ headersEnc urlAddr method headers urlParsed dataEnc data,
      TransmitValid env ht r session0 headersEnc urlAddr method headers urlParsed dataEnc data := by
  have h1' := h1
  unfold sessionIdOf at h1'
  unfold HandleTransmit
  simp only [h1', HttpTransmitSession.updateLastUpdate]
  cases h2 : env.base64_DecodeString (Header.Get env r.Header (ascii "HT-Session-Headers")) with
  | none => exact Or.inl ⟨rfl, rfl⟩
  | some headersEnc =>
    simp only []
    by_cases h3 : headersEnc.length < env.fxms.HashLen + env.fxms.MaskLen
    · rw [if_pos h3]
      exact Or.inl ⟨rfl, rfl⟩
    · rw [if_neg h3]
      cases h4 : (env.fxms.Decrypt session0.key headersEnc Optimization.OptimizeDecryption).2 with
      | false =>
        simp only [Bool.not_false, if_true]
        exact Or.inl ⟨rfl, rfl⟩
      | true =>
        simp only [Bool.not_true, Bool.false_eq_true, if_false]
        cases h5 : strings_Split
            (env.fxms.Decrypt session0.key headersEnc Optimization.OptimizeDecryption).1 nl with
        | nil => exact Or.inl ⟨rfl, rfl⟩
        | cons urlAddr rest =>
          cases rest with
          | nil => exact Or.inl ⟨rfl, rfl⟩
          | cons method headers =>
            have hlen : ¬ ((urlAddr :: method :: headers).length < 2) := by
              simp only [List.length_cons]
              omega
            rw [if_neg hlen]
            simp only [List.getD_cons_zero, List.getD_cons_succ, List.drop_succ_cons,
              List.drop_zero]
            cases h6 : env.url_Parse urlAddr with
            | none => exact Or.inl ⟨rfl, rfl⟩
            | some urlParsed =>
              simp only []
              cases h7 : (ht.whitelistedHosts.lookup urlParsed.Host).isSome with
              | false =>
                simp only [Bool.not_false, if_true]
                exact Or.inl ⟨rfl, rfl⟩
              | true =>
                simp only [Bool.not_true, Bool.false_eq_true, if_false]
                cases h8 : r.Body with
                | none => exact Or.inl ⟨rfl, rfl⟩
                | some dataEnc =>
                  simp only []
                  cases h9 : (env.fxms.Decrypt session0.key dataEnc
                      Optimization.OptimizeDecryption).2 with
                  | false =>
                    simp only [Bool.not_false, if_true]
                    exact Or.inl ⟨rfl, rfl⟩
                  | true =>
                    refine Or.inr ⟨headersEnc, urlAddr, method, headers, urlParsed, dataEnc,
                      (env.fxms.Decrypt session0.key dataEnc Optimization.OptimizeDecryption).1,
                      h1, h2, h3, h4, h5, h6, h7, h8, ?_⟩
                    rw [← h9]

/-- `_, ok = whitelistedHosts[host]`: `ok` holds exactly when `host` is a key of the map. -/
theorem whitelisted_iff (wl : List (Bytes × Bool)) (host : Bytes) :
    (wl.lookup host).isSome = true ↔ host ∈ wl.map Prod.fst := by
  induction wl with
  | nil => simp [List.lookup]
  | cons p wl ih =>
    obtain ⟨a, b⟩ := p
    by_cases h : host = a
    · subst h
      simp [List.lookup]
    · have hb : (host == a) = false := by simpa using h
      simp only [List.lookup, hb, List.map_cons, List.mem_cons, h, false_or]
      exact ih

/-- On failure `request` returns status 0 and an empty body. -/
theorem request_sentinel (env : Env) (urlAddr method : Bytes) (headers : List Bytes)
    (data : Bytes) (httpHeaders : Header)
    (hf : RelayFails env urlAddr method headers data httpHeaders) :
    request env urlAddr method headers data httpHeaders = (0, []) := by
  unfold request
  rcases hf with h | ⟨req, h, h2 | ⟨resp, h2, h3⟩⟩
  · simp only [h]
  · unfold outbound at h2
    simp only [h, h2]
  · unfold outbound at h2
    simp only [h, h2, h3]

/-- When the outbound call succeeds `request` returns the status and body of the response. -/
theorem request_response (env : Env) (urlAddr method : Bytes) (headers : List Bytes)
    (data : Bytes) (httpHeaders : Header) (req : OutRequest) (resp : Response)
    (respData : Bytes) (h1 : env.http_NewRequest method urlAddr data = some req)
    (h2 : env.http_Do (outbound env req headers httpHeaders) = some resp)
    (h3 : resp.Body = some respData) :
    request env urlAddr method headers data httpHeaders = (resp.StatusCode, respData) := by
  unfold request
  unfold outbound at h2
  simp only [h1, h2, h3]

/-- C3. A transmit request that passes every check calls `request` exactly once, with line 0
of the decrypted headers as URL, line 1 as method, the remaining lines as header lines and the
decrypted body. When the status `request` returned is one `WriteHeader` accepts, the handler
writes that status and then the encryption of the body `request` returned under the session
key, and only the status when that encryption returns an error. When the status is outside
`100..999`, `WriteHeader` panics and neither status nor body is written; this is what happens
when the outbound call fails, because `request` then returns the status 0. -/
theorem transmit_relays_and_answers (env : Env) (ht : HttpTransmit) (now : Int) (r : Request)
    (session0 : HttpTransmitSession) (headersEnc urlAddr method : Bytes) (headers : List Bytes)
    (urlParsed : URL) (dataEnc data : Bytes)
    (hv : TransmitValid env ht r session0 headersEnc urlAddr method headers urlParsed dataEnc
      data) :
    relayed (HandleTransmit env ht now r).2 =
      [Event.Request urlAddr method headers data r.Header] ∧
    (invalidWriteHeaderCode (request env urlAddr method headers data r.Header).1 = false →
      (HandleTransmit env ht now r).2 =
        [Event.Decrypt session0.key headersEnc,
         Event.Decrypt session0.key dataEnc,
         Event.Request urlAddr method headers data r.Header,
         Event.WriteHeader (request env urlAddr method headers data r.Header).1] ++
        (match env.fxms.Encrypt session0.key
            (request env urlAddr method headers data r.Header).2
            Optimization.OptimizeEncryption with
          | some body => [Event.Write body]
          | none => []) ∧
      written (HandleTransmit env ht now r).2 =
        Event.WriteHeader (request env urlAddr method headers data r.Header).1 ::
        (match env.fxms.Encrypt session0.key
            (request env urlAddr method headers data r.Header).2
            Optimization.OptimizeEncryption with
          | some body => [Event.Write body]
          | none => [])) ∧
    (invalidWriteHeaderCode (request env urlAddr method headers data r.Header).1 = true →
      (HandleTransmit env ht now r).2 =
        [Event.Decrypt session0.key headersEnc,
         Event.Decrypt session0.key dataEnc,
         Event.Request urlAddr method headers data r.Header,
         Event.Panic (request env urlAddr method headers data r.Header).1] ∧
      written (HandleTransmit env ht now r).2 = []) ∧
    (RelayFails env urlAddr method headers data r.Header →
      (HandleTransmit env ht now r).2 =
        [Event.Decrypt session0.key headersEnc,
         Event.Decrypt session0.key dataEnc,
         Event.Request urlAddr method headers data r.Header,
         Event.Panic 0] ∧
      written (HandleTransmit env ht now r).2 = []) := by
  have ht2 := HandleTransmit_valid_trace env ht now r session0 headersEnc urlAddr method headers
    urlParsed dataEnc data hv
  have hbad : invalidWriteHeaderCode (request env urlAddr method headers data r.Header).1 = true →
      (HandleTransmit env ht now r).2 =
        [Event.Decrypt session0.key headersEnc,
         Event.Decrypt session0.key dataEnc,
         Event.Request urlAddr method headers data r.Header,
         Event.Panic (request env urlAddr method headers data r.Header).1] ∧
      written (HandleTransmit env ht now r).2 = [] := by
    intro hinv
    rw [ht2, if_pos hinv]
    exact ⟨rfl, rfl⟩
  refine ⟨HandleTransmit_valid_relayed env ht now r session0 headersEnc urlAddr method headers
    urlParsed dataEnc data hv, ?_, hbad, ?_⟩
  · intro hinv
    rw [ht2, hinv]
    simp only [Bool.false_eq_true, if_false]
    cases env.fxms.Encrypt session0.key (request env urlAddr method headers data r.Header).2
      Optimization.OptimizeEncryption <;> exact ⟨rfl, rfl⟩
  · intro hf
    have hs := request_sentinel env urlAddr method headers data r.Header hf
    have h0 := hbad (by rw [hs]; rfl)
    rw [hs] at h0
    exact h0

theorem demoGet_valid (env : Env) (h1 : env.fxms = demoFxms)
    (h2 : env.base64_DecodeString = fun s => some s)
    (h3 : env.url_Parse = fun u => some { Host := demoHost u })
    (h4 : env.CanonicalMIMEHeaderKey = fun k => k) :
    TransmitValid env demoRelay1 demoGet { key := [1, 2], lastUpdate := 100 }
      (1 :: 0 :: ascii "http://allowed.example/path\nGET\n")
      (ascii "http://allowed.example/path") (ascii "GET") [[]]
      { Host := ascii "allowed.example" } [1, 0] [] := by
  unfold TransmitValid sessionIdOf Header.Get
  rw [h1, h2, h3, h4]
  exact ⟨by decide, by decide, by decide, by decide, by decide, by decide, by decide, by decide,
    by decide⟩

/-- The end-to-end scenario on the demo relay. With the destination answering 200 `ok` the
status and the encrypted body are written. With the destination unreachable `request` returns
the status 0, `WriteHeader` panics and nothing is written. -/
theorem transmit_relays_and_answers_witness :
    written (HandleTransmit demoEnv demoRelay1 105 demoGet).2 =
      [Event.WriteHeader 200, Event.Write (1 :: 0 :: ascii "ok")] ∧
    relayed (HandleTransmit demoEnv demoRelay1 105 demoGet).2 =
      [Event.Request (ascii "http://allowed.example/path") (ascii "GET") [[]] []
        demoGet.Header] ∧
    request demoEnvDown (ascii "http://allowed.example/path") (ascii "GET") [[]] []
      demoGet.Header = (0, []) ∧
    (HandleTransmit demoEnvDown demoRelay1 105 demoGet).2 =
      [Event.Decrypt [1, 2] (1 :: 0 :: ascii "http://allowed.example/path\nGET\n"),
       Event.Decrypt [1, 2] [1, 0],
       Event.Request (ascii "http://allowed.example/path") (ascii "GET") [[]] [] demoGet.Header,
       Event.Panic 0] ∧
    written (HandleTransmit demoEnvDown demoRelay1 105 demoGet).2 = [] :=
  ⟨((transmit_relays_and_answers demoEnv demoRelay1 105 demoGet _ _ _ _ _ _ _ _
      (demoGet_valid demoEnv rfl rfl rfl rfl)).2.1 (by decide)).2,
   (transmit_relays_and_answers demoEnv demoRelay1 105 demoGet _ _ _ _ _ _ _ _
      (demoGet_valid demoEnv rfl rfl rfl rfl)).1,
   by decide,
   ((transmit_relays_and_answers demoEnvDown demoRelay1 105 demoGet _ _ _ _ _ _ _ _
      (demoGet_valid demoEnvDown rfl rfl rfl rfl)).2.2.2 (Or.inr ⟨_, rfl, Or.inl rfl⟩)).1,
   ((transmit_relays_and_answers demoEnvDown demoRelay1 105 demoGet _ _ _ _ _ _ _ _
      (demoGet_valid demoEnvDown rfl rfl rfl rfl)).2.2.2 (Or.inr ⟨_, rfl, Or.inl rfl⟩)).2⟩

/-- C4. `HandleTransmit` calls `request` only when the host of the parsed destination URL
(line 0 of the decrypted headers) is one of the keys of the whitelist, compared byte for byte;
when the host of the parsed destination is not one of them, nothing is written to the response
and `request` is not called. -/
theorem transmit_whitelist_gate (env : Env) (ht : HttpTransmit) (now : Int) (r : Request) :
    (relayed (HandleTransmit env ht now r).2 ≠ [] →
      ∃ session0 headersEnc urlParsed,
        ht.sessions.lookup (sessionIdOf env r) = some session0 ∧
        env.base64_DecodeString (Header.Get env r.Header (ascii "HT-Session-Headers")) =
          some headersEnc ∧
        env.url_Parse (destinationOf env session0.key headersEnc) = some urlParsed ∧
        urlParsed.Host ∈ ht.whitelistedHosts.map Prod.fst) ∧
    (∀ session0 headersEnc urlParsed,
      ht.sessions.lookup (sessionIdOf env r) = some session0 →
      env.base64_DecodeString (Header.Get env r.Header (ascii "HT-Session-Headers")) =
        some headersEnc →
      env.url_Parse (destinationOf env session0.key headersEnc) = some urlParsed →
      urlParsed.Host ∉ ht.whitelistedHosts.map Prod.fst →
      written (HandleTransmit env ht now r).2 = [] ∧
      relayed (HandleTransmit env ht now r).2 = []) := by
  constructor
  · intro hrel
    cases h1 : ht.sessions.lookup (sessionIdOf env r) with
    | none =>
      rw [HandleTransmit_unknown env ht now r h1] at hrel
      exact absurd rfl hrel
    | some session0 =>
      rcases HandleTransmit_known_cases env ht now r session0 h1 with hs | hv
      · exact absurd hs.2 hrel
      · obtain ⟨headersEnc, urlAddr, method, headers, urlParsed, dataEnc, data, hv⟩ := hv
        obtain ⟨_, h2, _, _, h5, h6, h7, _, _⟩ := hv
        refine ⟨session0, headersEnc, urlParsed, rfl, h2, ?_, (whitelisted_iff _ _).1 h7⟩
        unfold destinationOf
        rw [h5]
        exact h6
  · intro session0 headersEnc urlParsed h1 h2 h6 hnot
    rcases HandleTransmit_known_cases env ht now r session0 h1 with hs | hv
    · exact hs
    · obtain ⟨headersEnc', urlAddr, method, headers, urlParsed', dataEnc, data, hv⟩ := hv
      obtain ⟨_, h2', _, _, h5, h6', h7, _, _⟩ := hv
      rw [h2] at h2'
      cases h2'
      unfold destinationOf at h6
      rw [h5] at h6
      rw [show (urlAddr :: method :: headers).getD 0 [] = urlAddr from rfl, h6'] at h6
      cases h6
      exact absurd ((whitelisted_iff _ _).1 h7) hnot

/-- On the demo relay the request to `allowed.example` reaches `request`, and the request to
`Allowed.example` writes nothing and does not reach it. -/
theorem transmit_whitelist_gate_witness :
    relayed (HandleTransmit demoEnv demoRelay1 105 demoGet).2 ≠ [] ∧
    (∃ session0 headersEnc urlParsed,
      demoRelay1.sessions.lookup (sessionIdOf demoEnv demoGet) = some session0 ∧
      demoEnv.base64_DecodeString (Header.Get demoEnv demoGet.Header (ascii "HT-Session-Headers")) =
        some headersEnc ∧
      demoEnv.url_Parse (destinationOf demoEnv session0.key headersEnc) = some urlParsed ∧
      urlParsed.Host ∈ demoRelay1.whitelistedHosts.map Prod.fst) ∧
    written (HandleTransmit demoEnv demoRelay1 105 demoGetOtherCase).2 = [] ∧
    relayed (HandleTransmit demoEnv demoRelay1 105 demoGetOtherCase).2 = [] :=
  ⟨by decide,
   (transmit_whitelist_gate demoEnv demoRelay1 105 demoGet).1 (by decide),
   (transmit_whitelist_gate demoEnv demoRelay1 105 demoGetOtherCase).2
      { key := [1, 2], lastUpdate := 100 }
      (1 :: 0 :: ascii "http://Allowed.example/path\nGET\n")
      { Host := ascii "Allowed.example" } (by decide) (by decide) (by decide) (by decide)⟩

/-- C8. A transmit request on a known session whose header blob is garbage writes nothing and
does not call `request`; afterwards the session has its old key and `lastUpdate` equal to the
current time, every other session is as before, no session id was added or removed, and the
rest of the relay state is unchanged. -/
theorem transmit_garbage_headers_refresh (env : Env) (ht : HttpTransmit) (now : Int)
    (r : Request) (session0 : HttpTransmitSession)
    (h1 : ht.sessions.lookup (sessionIdOf env r) = some session0)
    (hg : HeadersGarbage env r session0.key) :
    written (HandleTransmit env ht now r).2 = [] ∧
    relayed (HandleTransmit env ht now r).2 = [] ∧
    (HandleTransmit env ht now r).1.sessions.lookup (sessionIdOf env r) =
      some { key := session0.key, lastUpdate := now } ∧
    (∀ t, t ≠ sessionIdOf env r →
      (HandleTransmit env ht now r).1.sessions.lookup t = ht.sessions.lookup t) ∧
    (HandleTransmit env ht now r).1.sessions.map Prod.fst = ht.sessions.map Prod.fst ∧
    (HandleTransmit env ht now r).1.whitelistedHosts = ht.whitelistedHosts ∧
    (HandleTransmit env ht now r).1.key = ht.key ∧
    (HandleTransmit env ht now r).1.maxSessionTimeSecs = ht.maxSessionTimeSecs := by
  have hst := HandleTransmit_store env ht now r session0 h1
  have htr : written (HandleTransmit env ht now r).2 = [] ∧
      relayed (HandleTransmit env ht now r).2 = [] := by
    rcases HandleTransmit_known_cases env ht now r session0 h1 with hs | hv
    · exact hs
    · obtain ⟨headersEnc, urlAddr, method, headers, urlParsed, dataEnc, data, hv⟩ := hv
      obtain ⟨_, h2, h3, h4, h5, _, _, _, _⟩ := hv
      rcases hg with hg | ⟨enc, hg, hg2⟩
      · rw [hg] at h2
        cases h2
      · rw [hg] at h2
        cases h2
        rcases hg2 with hg2 | hg2 | hg2
        · exact absurd hg2 h3
        · rw [hg2] at h4
          cases h4
        · rw [h5] at hg2
          simp only [List.length_cons] at hg2
          omega
  refine ⟨htr.1, htr.2, ?_, ?_, ?_, ?_, ?_, ?_⟩
  · rw [hst]
    show (ht.sessions.modify (sessionIdOf env r) (HttpTransmitSession.updateLastUpdate now)).lookup
      (sessionIdOf env r) = _
    rw [lookup_modify_self, h1]
    rfl
  · intro t hne
    rw [hst]
    exact lookup_modify_other _ _ _ _ hne
  · rw [hst]
    exact modify_keys _ _ _
  · rw [hst]
    rfl
  · rw [hst]
    rfl
  · rw [hst]
    rfl

/-- A transmit request on session `s1` of the demo relay whose header blob does not
authenticate: nothing is written and the session is refreshed to time 105. -/
theorem transmit_garbage_headers_refresh_witness :
    written (HandleTransmit demoEnv demoRelay1 105 (demoTransmit [9, 9, 9] [])).2 = [] ∧
    (HandleTransmit demoEnv demoRelay1 105 (demoTransmit [9, 9, 9] [])).1.sessions.lookup
      (ascii "s1") = some { key := [1, 2], lastUpdate := 105 } :=
  ⟨(transmit_garbage_headers_refresh demoEnv demoRelay1 105 (demoTransmit [9, 9, 9] [])
      { key := [1, 2], lastUpdate := 100 } (by decide)
      (Or.inr ⟨[9, 9, 9], rfl, Or.inr (Or.inl (by decide))⟩)).1,
   (transmit_garbage_headers_refresh demoEnv demoRelay1 105 (demoTransmit [9, 9, 9] [])
      { key := [1, 2], lastUpdate := 100 } (by decide)
      (Or.inr ⟨[9, 9, 9], rfl, Or.inr (Or.inl (by decide))⟩)).2.2.1⟩

/-- Every ciphertext `HandleConnect` passes to `fxms.Decrypt` has at least
`HashLen + MaskLen + KeyLen` bytes. -/
theorem HandleConnect_decrypt_guarded (env : Env) (ht : HttpTransmit) (now : Int) (r : Request)
    (key ciphertext : Bytes) (h : Event.Decrypt key ciphertext ∈ (HandleConnect env ht now r).2) :
    env.fxms.HashLen + env.fxms.MaskLen + env.fxms.KeyLen ≤ ciphertext.length := by
  unfold HandleConnect at h
  cases h1 : env.base64_DecodeString (Header.Get env r.Header (ascii "HT-Session-Key")) with
  | none =>
    simp only [h1] at h
    exact absurd h (List.not_mem_nil _)
  | some enc =>
    simp only [h1] at h
    by_cases hl : enc.length < env.fxms.HashLen + env.fxms.MaskLen + env.fxms.KeyLen
    · rw [if_pos hl] at h
      exact absurd h (List.not_mem_nil _)
    · rw [if_neg hl] at h
      have hmem : Event.Decrypt key ciphertext ∈
          [Event.Decrypt ht.key enc] ∨ ∃ d, Event.Decrypt key ciphertext = Event.Write d := by
        repeat' split at h
        all_goals first
          | exact Or.inl h
          | (rcases List.mem_append.1 h with h | h
             · exact Or.inl h
             · exact Or.inr ⟨_, List.mem_singleton.1 h⟩)
      rcases hmem with hmem | ⟨d, hd⟩
      · have he := List.mem_singleton.1 hmem
        injection he with _ hc
        rw [hc]
        omega
      · cases hd

/-- A header blob shorter than `HashLen + MaskLen` ends `HandleTransmit` before any call: the
trace is empty. -/
theorem HandleTransmit_header_decrypt_guarded (env : Env) (ht : HttpTransmit) (now : Int)
    (r : Request) (session0 : HttpTransmitSession) (headersEnc : Bytes)
    (h1 : ht.sessions.lookup (sessionIdOf env r) = some session0)
    (h2 : env.base64_DecodeString (Header.Get env r.Header (ascii "HT-Session-Headers")) =
      some headersEnc)
    (h3 : headersEnc.length < env.fxms.HashLen + env.fxms.MaskLen) :
    (HandleTransmit env ht now r).2 = [] := by
  unfold sessionIdOf at h1
  unfold HandleTransmit
  simp only [h1, h2, if_pos h3]

/-- C5, the call site that is not guarded: when the checks before the body pass, the request
body is passed to `fxms.Decrypt` although it is shorter than `HashLen + MaskLen`. -/
theorem transmit_body_decrypt_unguarded (env : Env) (ht : HttpTransmit) (now : Int)
    (r : Request) (session0 : HttpTransmitSession) (headersEnc urlAddr method : Bytes)
    (headers : List Bytes) (urlParsed : URL) (dataEnc : Bytes)
    (h1 : ht.sessions.lookup (sessionIdOf env r) = some session0)
    (h2 : env.base64_DecodeString (Header.Get env r.Header (ascii "HT-Session-Headers")) =
      some headersEnc)
    (h3 : ¬ headersEnc.length < env.fxms.HashLen + env.fxms.MaskLen)
    (h4 : (env.fxms.Decrypt session0.key headersEnc Optimization.OptimizeDecryption).2 = true)
    (h5 : strings_Split
      (env.fxms.Decrypt session0.key headersEnc Optimization.OptimizeDecryption).1 nl =
        urlAddr :: method :: headers)
    (h6 : env.url_Parse urlAddr = some urlParsed)
    (h7 : (ht.whitelistedHosts.lookup urlParsed.Host).isSome = true)
    (h8 : r.Body = some dataEnc)
    (_hshort : dataEnc.length < env.fxms.HashLen + env.fxms.MaskLen) :
    Event.Decrypt session0.key dataEnc ∈ (HandleTransmit env ht now r).2 := by
  unfold sessionIdOf at h1
  unfold HandleTransmit
  simp only [h1, h2, h3, h4, h5, h6, h7, h8, HttpTransmitSession.updateLastUpdate,
    if_false, Bool.not_true, Bool.false_eq_true, List.length_cons, List.getD_cons_zero,
    List.getD_cons_succ, List.drop_succ_cons, List.drop_zero]
  have hlen : ¬ (headers.length + 1 + 1 < 2) := by omega
  simp only [hlen, if_false]
  cases (env.fxms.Decrypt session0.key dataEnc Optimization.OptimizeDecryption).2
  · simp
  · simp only [Bool.not_true, Bool.false_eq_true, if_false]
    cases invalidWriteHeaderCode (request env urlAddr method headers
      (env.fxms.Decrypt session0.key dataEnc Optimization.OptimizeDecryption).1 r.Header).1
    · simp only [Bool.false_eq_true, if_false]
      cases env.fxms.Encrypt session0.key
        (request env urlAddr method headers (env.fxms.Decrypt session0.key dataEnc
          Optimization.OptimizeDecryption).1 r.Header).2 Optimization.OptimizeEncryption <;> simp
    · simp

/-- The end-to-end scenario with an empty request body (0 bytes, below `HashLen + MaskLen = 2`):
`fxms.Decrypt` is called on the empty body. -/
theorem transmit_body_decrypt_unguarded_witness :
    ([] : Bytes).length < demoEnv.fxms.HashLen + demoEnv.fxms.MaskLen ∧
    Event.Decrypt [1, 2] [] ∈
      (HandleTransmit demoEnv demoRelay1 105
        (demoTransmit (1 :: 0 :: ascii "http://allowed.example/path\nGET\n") [])).2 :=
  ⟨by decide,
   transmit_body_decrypt_unguarded demoEnv demoRelay1 105
    (demoTransmit (1 :: 0 :: ascii "http://allowed.example/path\nGET\n") [])
    { key := [1, 2], lastUpdate := 100 } (1 :: 0 :: ascii "http://allowed.example/path\nGET\n")
    (ascii "http://allowed.example/path") (ascii "GET") [[]] { Host := ascii "allowed.example" }
    [] (by decide) (by decide) (by decide) (by decide) (by decide) (by decide) (by decide)
    (by decide) (by decide)⟩

/-! ## The sweep -/

/-- When `now - lastUpdate` fits in an `int64`, `getDeltaUpdate` is that difference. -/
theorem getDeltaUpdate_eq_sub (now : Int) (s : HttpTransmitSession)
    (hlo : -2 ^ 63 ≤ now - s.lastUpdate) (hhi : now - s.lastUpdate < 2 ^ 63) :
    s.getDeltaUpdate now = now - s.lastUpdate := by
  unfold HttpTransmitSession.getDeltaUpdate wrapInt64
  have h : (now - s.lastUpdate + 2 ^ 63) % 2 ^ 64 = now - s.lastUpdate + 2 ^ 63 :=
    Int.emod_eq_of_lt (by omega) (by omega)
  rw [h]
  omega

/-- The session kept by one visit of the sweep loop. -/
theorem sweepVisit_lookup (clock : Bytes → Int) (maxAge : Int) (m : Sessions) (k t : Bytes) :
    (sweepVisit clock maxAge m k).lookup t =
      if t = k then
        (m.lookup t).filter (fun s => decide (s.getDeltaUpdate (clock t) < maxAge))
      else m.lookup t := by
  unfold sweepVisit
  by_cases htk : t = k
  · subst htk
    rw [if_pos rfl]
    cases hl : m.lookup t with
    | none => exact hl
    | some session =>
      simp only []
      by_cases hd : session.getDeltaUpdate (clock t) ≥ maxAge
      · rw [if_pos hd, lookup_delete_self]
        have : ¬ session.getDeltaUpdate (clock t) < maxAge := by omega
        simp [Option.filter, this]
      · rw [if_neg hd, hl]
        have : session.getDeltaUpdate (clock t) < maxAge := by omega
        simp [Option.filter, this]
  · rw [if_neg htk]
    cases hl : m.lookup k with
    | none => rfl
    | some session =>
      simp only []
      by_cases hd : session.getDeltaUpdate (clock k) ≥ maxAge
      · rw [if_pos hd, lookup_delete_other _ _ _ htk]
      · rw [if_neg hd]

theorem option_filter_idem (p : HttpTransmitSession → Bool) (o : Option HttpTransmitSession) :
    (o.filter p).filter p = o.filter p := by
  cases o with
  | none => rfl
  | some s =>
    cases hp : p s <;> simp [Option.filter, hp]

/-- The session kept by the sweep loop over the ids `keys`. -/
theorem sweepLoop_lookup (clock : Bytes → Int) (maxAge : Int) (keys : List Bytes) :
    ∀ (m : Sessions) (t : Bytes),
      (keys.foldl (sweepVisit clock maxAge) m).lookup t =
        if t ∈ keys then
          (m.lookup t).filter (fun s => decide (s.getDeltaUpdate (clock t) < maxAge))
        else m.lookup t := by
  induction keys with
  | nil =>
    intro m t
    simp
  | cons k ks ih =>
    intro m t
    rw [List.foldl_cons, ih, sweepVisit_lookup]
    by_cases htk : t = k
    · subst htk
      simp only [if_true, List.mem_cons, true_or]
      by_cases hks : t ∈ ks
      · rw [if_pos hks, option_filter_idem]
      · rw [if_neg hks]
    · simp only [htk, if_false, List.mem_cons, false_or]

theorem lookup_eq_none_of_not_mem_keys (m : Sessions) (t : Bytes) (h : t ∉ m.map Prod.fst) :
    m.lookup t = none := by
  induction m with
  | nil => rfl
  | cons p m ih =>
    obtain ⟨a, b⟩ := p
    simp only [List.map_cons, List.mem_cons, not_or] at h
    rw [lookup_cons_other _ _ _ _ h.1]
    exact ih h.2

/-- The session a sweep pass keeps under each id. -/
theorem sweep_lookup (clock : Bytes → Int) (ht : HttpTransmit) (t : Bytes) :
    (sweep clock ht).sessions.lookup t =
      (ht.sessions.lookup t).filter
        (fun s => decide (s.getDeltaUpdate (clock t) < ht.maxSessionTimeSecs)) := by
  unfold sweep
  simp only []
  rw [sweepLoop_lookup]
  by_cases hk : t ∈ ht.sessions.map Prod.fst
  · rw [if_pos hk]
  · rw [if_neg hk, lookup_eq_none_of_not_mem_keys _ _ hk]
    rfl

/-- The sweep loop only removes entries. -/
theorem sweep_subset (clock : Bytes → Int) (maxAge : Int) (keys : List Bytes) :
    ∀ (m : Sessions) (p : Bytes × HttpTransmitSession),
      p ∈ keys.foldl (sweepVisit clock maxAge) m → p ∈ m := by
  induction keys with
  | nil =>
    intro m p hp
    exact hp
  | cons k ks ih =>
    intro m p hp
    rw [List.foldl_cons] at hp
    have h1 := ih _ p hp
    unfold sweepVisit at h1
    split at h1
    · exact h1
    · split at h1
      · exact (List.mem_filter.1 h1).1
      · exact h1

/-- C2. One sweep pass made at the time `now` keeps under every id exactly the session the
store held there if its `getDeltaUpdate`, the `int64` difference `now - lastUpdate`, is below
`maxSessionTimeSecs`, with key and `lastUpdate` unchanged, and no session otherwise: a session
inside the idle window stays, a session idle for `maxSessionTimeSecs` or more is removed, and
no session appears. The rest of the relay state is unchanged. -/
theorem sweep_keeps_exactly_fresh (ht : HttpTransmit) (now : Int) :
    (∀ (id : Bytes) (s : HttpTransmitSession),
      (sweep (fun _ => now) ht).sessions.lookup id = some s ↔
        ht.sessions.lookup id = some s ∧ s.getDeltaUpdate now < ht.maxSessionTimeSecs) ∧
    (∀ (id : Bytes) (s : HttpTransmitSession),
      ht.sessions.lookup id = some s → s.getDeltaUpdate now ≥ ht.maxSessionTimeSecs →
        (sweep (fun _ => now) ht).sessions.lookup id = none) ∧
    (∀ p, p ∈ (sweep (fun _ => now) ht).sessions → p ∈ ht.sessions) ∧
    (sweep (fun _ => now) ht).whitelistedHosts = ht.whitelistedHosts ∧
    (sweep (fun _ => now) ht).key = ht.key ∧
    (sweep (fun _ => now) ht).maxSessionTimeSecs = ht.maxSessionTimeSecs := by
  refine ⟨?_, ?_, ?_, rfl, rfl, rfl⟩
  · intro id s
    rw [sweep_lookup]
    cases hl : ht.sessions.lookup id with
    | none => simp [Option.filter]
    | some s0 =>
      by_cases hd : s0.getDeltaUpdate now < ht.maxSessionTimeSecs
      · simp only [Option.filter, hd, decide_True, if_true, Option.some.injEq]
        constructor
        · intro h
          subst h
          exact ⟨rfl, hd⟩
        · intro h
          exact h.1
      · simp only [Option.filter, hd, decide_False, Bool.false_eq_true, if_false,
          Option.some.injEq]
        constructor
        · intro h
          cases h
        · intro h
          obtain ⟨h1, h2⟩ := h
          subst h1
          exact absurd h2 hd
  · intro id s hl hd
    rw [sweep_lookup, hl]
    have : ¬ s.getDeltaUpdate now < ht.maxSessionTimeSecs := by omega
    simp [Option.filter, this]
  · intro p hp
    exact sweep_subset (fun _ => now) ht.maxSessionTimeSecs (ht.sessions.map Prod.fst)
      ht.sessions p hp

/-- A sweep of `demoRelay2` at time 105 with a window of 60 seconds keeps `s1`, idle for 5
seconds, and removes `s2`, idle for 75 seconds. -/
theorem sweep_keeps_exactly_fresh_witness :
    (sweep (fun _ => 105) demoRelay2).sessions.lookup (ascii "s1") =
      some { key := [1, 2], lastUpdate := 100 } ∧
    (sweep (fun _ => 105) demoRelay2).sessions.lookup (ascii "s2") = none :=
  ⟨((sweep_keeps_exactly_fresh demoRelay2 105).1 (ascii "s1")
      { key := [1, 2], lastUpdate := 100 }).2 ⟨by decide, by decide⟩,
   (sweep_keeps_exactly_fresh demoRelay2 105).2.1 (ascii "s2")
      { key := [3, 4], lastUpdate := 30 } (by decide) (by decide)⟩

/-! ## Reachable states -/

/-- A handshake either fails a check or passes them all. -/
theorem connect_valid_or_invalid (env : Env) (ht : HttpTransmit) (r : Request) :
    ConnectInvalid env ht r ∨ ∃ K, ConnectValid env ht r K := by
  unfold ConnectInvalid ConnectValid
  cases h1 : env.base64_DecodeString (Header.Get env r.Header (ascii "HT-Session-Key")) with
  | none => exact Or.inl (Or.inl rfl)
  | some enc =>
    by_cases h2 : enc.length < env.fxms.HashLen + env.fxms.MaskLen + env.fxms.KeyLen
    · exact Or.inl (Or.inr ⟨enc, rfl, Or.inl h2⟩)
    · cases h3 : (env.fxms.Decrypt ht.key enc Optimization.OptimizeDecryption).2 with
      | false => exact Or.inl (Or.inr ⟨enc, rfl, Or.inr (Or.inl h3)⟩)
      | true =>
        by_cases h4 : (env.fxms.Decrypt ht.key enc Optimization.OptimizeDecryption).1.length <
            env.fxms.KeyLen
        · exact Or.inl (Or.inr ⟨enc, rfl, Or.inr (Or.inr h4)⟩)
        · refine Or.inr ⟨(env.fxms.Decrypt ht.key enc Optimization.OptimizeDecryption).1,
            enc, rfl, h2, ?_, h4⟩
          rw [← h3]

theorem HandleConnect_keys (env : Env) (ht : HttpTransmit) (now : Int) (r : Request)
    (h : KeysLongEnough env ht) : KeysLongEnough env (HandleConnect env ht now r).1 := by
  rcases connect_valid_or_invalid env ht r with hf | ⟨K, hv⟩
  · rw [(HandleConnect_invalid env ht now r hf).1]
    exact h
  · rw [HandleConnect_valid_store env ht now r K hv]
    cases ht.sessions.lookup (sessionIdOf env r) with
    | some s0 => exact h
    | none =>
      intro p hp
      rcases List.mem_cons.1 hp with hp | hp
      · rw [hp]
        obtain ⟨_, _, _, _, h4⟩ := hv
        exact Nat.le_of_not_lt h4
      · exact h p (List.mem_filter.1 hp).1

theorem HandleTransmit_keys (env : Env) (ht : HttpTransmit) (now : Int) (r : Request)
    (h : KeysLongEnough env ht) : KeysLongEnough env (HandleTransmit env ht now r).1 := by
  cases h1 : ht.sessions.lookup (sessionIdOf env r) with
  | none =>
    rw [HandleTransmit_unknown env ht now r h1]
    exact h
  | some session0 =>
    rw [HandleTransmit_store env ht now r session0 h1]
    intro p hp
    obtain ⟨q, hq, hqp⟩ := List.mem_map.1 hp
    have hk : p.2.key = q.2.key := by
      rw [← hqp]
      split <;> rfl
    rw [hk]
    exact h q hq

theorem sweep_keys (env : Env) (ht : HttpTransmit) (clock : Bytes → Int)
    (h : KeysLongEnough env ht) : KeysLongEnough env (sweep clock ht) := by
  intro p hp
  exact h p (sweep_subset clock ht.maxSessionTimeSecs (ht.sessions.map Prod.fst) ht.sessions p hp)

/-- C9. In every relay state reachable from the state made by `NewHttpTransmit` by handshakes,
transmit requests and sweep passes, every stored session key has at least `KeyLen` bytes. -/
theorem reachable_keys_long_enough (env : Env) (ht : HttpTransmit) (h : Reachable env ht) :
    ∀ p ∈ ht.sessions, env.fxms.KeyLen ≤ p.2.key.length := by
  induction h with
  | init wl key maxAge ht h =>
    unfold NewHttpTransmit at h
    split at h
    · cases h
    · cases h
      intro p hp
      exact absurd hp (List.not_mem_nil _)
  | connect ht now r _ ih => exact HandleConnect_keys env ht now r ih
  | transmit ht now r _ ih => exact HandleTransmit_keys env ht now r ih
  | sweep ht clock _ ih => exact sweep_keys env ht clock ih

/-- The demo relay after a handshake with the too-short key `[5]`, a handshake with the key
`[1, 2]`, a transmit request and a sweep is reachable, and its one session has a key of
`KeyLen = 2` bytes. -/
theorem reachable_keys_long_enough_witness :
    (sweep (fun _ => 110)
      (HandleTransmit demoEnv
        (HandleConnect demoEnv (HandleConnect demoEnv demoRelay 99 (demoConnect [5])).1 100
          (demoConnect [1, 2])).1 105 demoGet).1).sessions =
      [(ascii "s1", { key := [1, 2], lastUpdate := 105 })] ∧
    ∀ p ∈ (sweep (fun _ => 110)
      (HandleTransmit demoEnv
        (HandleConnect demoEnv (HandleConnect demoEnv demoRelay 99 (demoConnect [5])).1 100
          (demoConnect [1, 2])).1 105 demoGet).1).sessions,
      demoEnv.fxms.KeyLen ≤ p.2.key.length :=
  ⟨by decide,
   reachable_keys_long_enough demoEnv _
    (Reachable.sweep _ _ (Reachable.transmit _ _ _ (Reachable.connect _ _ _
      (Reachable.connect _ _ _
        (Reachable.init demoRelay.whitelistedHosts [7, 7] 60 demoRelay (by decide))))))⟩

/-! ## The decrypted header text -/

theorem strings_Split_ne_nil (s : Bytes) (sep : UInt8) : strings_Split s sep ≠ [] := by
  induction s with
  | nil => simp [strings_Split]
  | cons c cs ih =>
    unfold strings_Split
    split
    · simp
    · split <;> simp

theorem strings_Split_cons_sep (cs : Bytes) (sep : UInt8) :
    strings_Split (sep :: cs) sep = [] :: strings_Split cs sep := by
  rw [strings_Split, if_pos rfl]

theorem strings_Split_cons_other (c : UInt8) (cs l : Bytes) (ls : List Bytes) (sep : UInt8)
    (hc : ¬ c = sep) (h : strings_Split cs sep = l :: ls) :
    strings_Split (c :: cs) sep = (c :: l) :: ls := by
  rw [strings_Split, if_neg hc, h]

/-- A text without the separator is one piece. -/
theorem strings_Split_no_sep (s : Bytes) (sep : UInt8) (h : sep ∉ s) :
    strings_Split s sep = [s] := by
  induction s with
  | nil => rfl
  | cons c cs ih =>
    have hc : ¬ c = sep := fun e => h (e ▸ List.mem_cons_self _ _)
    have hcs : sep ∉ cs := fun e => h (List.mem_cons_of_mem _ e)
    exact strings_Split_cons_other c cs cs [] sep hc (ih hcs)

/-- The first piece of a text is what stands before the first separator. -/
theorem strings_Split_first (u rest : Bytes) (sep : UInt8) (h : sep ∉ u) :
    strings_Split (u ++ sep :: rest) sep = u :: strings_Split rest sep := by
  induction u with
  | nil => exact strings_Split_cons_sep rest sep
  | cons c cs ih =>
    have hc : ¬ c = sep := fun e => h (e ▸ List.mem_cons_self _ _)
    have hcs : sep ∉ cs := fun e => h (List.mem_cons_of_mem _ e)
    exact strings_Split_cons_other c (cs ++ sep :: rest) cs _ sep hc (ih hcs)

theorem ascii_colonSpace : ascii ": " = colonSpace := by decide

theorem colonSpace_not_isPrefixOf (c : UInt8) (a b : Bytes)
    (h : ¬ colonSpace <:+: (c :: a)) :
    colonSpace.isPrefixOf (c :: (a ++ 58 :: 32 :: b)) = false := by
  cases a with
  | nil =>
    simp [colonSpace, List.isPrefixOf]
  | cons d a =>
    by_cases hc : c = 58
    · by_cases hd : d = 32
      · exfalso
        apply h
        subst hc
        subst hd
        exact ⟨[], a, rfl⟩
      · simp only [colonSpace, List.isPrefixOf, List.cons_append, Bool.and_true,
          Bool.and_eq_false_imp, beq_iff_eq, beq_eq_false_iff_ne, ne_eq]
        intro _ e
        exact hd e.symm
    · simp only [colonSpace, List.isPrefixOf, List.cons_append, Bool.and_true,
        Bool.and_eq_false_imp, beq_iff_eq, beq_eq_false_iff_ne, ne_eq]
      intro e
      exact absurd e.symm hc

theorem infix_tail (c : UInt8) (a : Bytes) (h : ¬ colonSpace <:+: (c :: a)) :
    ¬ colonSpace <:+: a := by
  intro hin
  apply h
  obtain ⟨s, t, e⟩ := hin
  exact ⟨c :: s, t, by rw [← e]; rfl⟩

/-- The index of the first `": "` of a line is the length of the text before it. -/
theorem strings_Index_first (a b : Bytes) (h : ¬ colonSpace <:+: a) :
    strings_Index (a ++ 58 :: 32 :: b) colonSpace = a.length := by
  induction a with
  | nil =>
    show strings_Index (58 :: 32 :: b) colonSpace = 0
    unfold strings_Index
    simp [colonSpace, List.isPrefixOf]
  | cons c a ih =>
    show strings_Index (c :: (a ++ 58 :: 32 :: b)) colonSpace = _
    unfold strings_Index
    rw [colonSpace_not_isPrefixOf c a b h]
    simp only [Bool.false_eq_true, if_false]
    rw [ih (infix_tail c a h)]
    have : ¬ ((a.length : Int) < 0) := by omega
    rw [if_neg this]
    simp

/-- A line without `": "` has index `-1`. -/
theorem strings_Index_absent (line : Bytes) (h : ¬ colonSpace <:+: line) :
    strings_Index line colonSpace = -1 := by
  induction line with
  | nil =>
    unfold strings_Index
    simp [colonSpace]
  | cons c cs ih =>
    unfold strings_Index
    have hp : colonSpace.isPrefixOf (c :: cs) = false := by
      cases hb : colonSpace.isPrefixOf (c :: cs) with
      | false => rfl
      | true =>
        exfalso
        apply h
        obtain ⟨t, ht⟩ := List.isPrefixOf_iff_prefix.1 hb
        exact ⟨[], t, by simpa using ht⟩
    rw [hp]
    simp only [Bool.false_eq_true, if_false]
    rw [ih (infix_tail c cs h)]
    simp

/-- A header line `name: value` sets the header `name` to `value`, where `name` is the text
before the first `": "`. -/
theorem setHeaderLine_pair (env : Env) (h : Header) (a b : Bytes)
    (ha : ¬ colonSpace <:+: a) :
    setHeaderLine env h (a ++ colonSpace ++ b) = Header.Set env h a b := by
  unfold setHeaderLine
  rw [ascii_colonSpace]
  have e : a ++ colonSpace ++ b = a ++ 58 :: 32 :: b := by simp [colonSpace]
  rw [e, strings_Index_first a b ha]
  simp only [ge_iff_le, Int.natCast_nonneg, if_true, Int.toNat_ofNat]
  have e1 : List.take a.length (a ++ 58 :: 32 :: b) = a := by simp
  have e2 : List.drop (a.length + 2) (a ++ 58 :: 32 :: b) = b := by
    rw [List.drop_append]
    rfl
  rw [e1, e2]

/-- A header line without `": "` sets no header. -/
theorem setHeaderLine_none (env : Env) (h : Header) (line : Bytes)
    (hl : ¬ colonSpace <:+: line) :
    setHeaderLine env h line = h := by
  unfold setHeaderLine
  rw [ascii_colonSpace, strings_Index_absent line hl]
  simp

/-- C10. The decrypted header text is read as follows.
(1) A text without a newline is rejected: nothing is written and `request` is not called.
(2) A text `u`, newline, `m` with no newline in `u` or `m` makes the handler call `request`
with the URL `u`, the method `m` and no header line. (3) A text `u`, newline, `m`, newline,
`rest` makes it call `request` with the URL `u`, the method `m` and the lines of `rest` as
header lines. (4) `request` hands to the HTTP client the request made by `http.NewRequest` for
that method, URL and body, on which it has run `setHeaderLine` on each header line in order and
then set `X-Forwarded-For`, and it returns the status and body of the client's response.
(5) `setHeaderLine` on a line `a`, `": "`, `b` with no `": "` in `a` sets the header `a` to
`b`. (6) `setHeaderLine` on a line without `": "` sets no header. (7) The text
`http://allowed.example/path`, newline, `GET`, newline gives that URL, the method `GET` and
one empty header line, and the request handed to the client carries no header from it. -/
theorem headers_text_reading :
    (∀ (env : Env) (ht : HttpTransmit) (now : Int) (r : Request)
        (session0 : HttpTransmitSession) (headersEnc : Bytes),
      ht.sessions.lookup (sessionIdOf env r) = some session0 →
      env.base64_DecodeString (Header.Get env r.Header (ascii "HT-Session-Headers")) =
        some headersEnc →
      nl ∉ (env.fxms.Decrypt session0.key headersEnc Optimization.OptimizeDecryption).1 →
      written (HandleTransmit env ht now r).2 = [] ∧
      relayed (HandleTransmit env ht now r).2 = []) ∧
    (∀ (env : Env) (ht : HttpTransmit) (now : Int) (r : Request)
        (session0 : HttpTransmitSession) (headersEnc u m : Bytes) (urlParsed : URL)
        (dataEnc data : Bytes),
      ht.sessions.lookup (sessionIdOf env r) = some session0 →
      env.base64_DecodeString (Header.Get env r.Header (ascii "HT-Session-Headers")) =
        some headersEnc →
      ¬ headersEnc.length < env.fxms.HashLen + env.fxms.MaskLen →
      env.fxms.Decrypt session0.key headersEnc Optimization.OptimizeDecryption =
        (u ++ nl :: m, true) →
      nl ∉ u → nl ∉ m →
      env.url_Parse u = some urlParsed →
      (ht.whitelistedHosts.lookup urlParsed.Host).isSome = true →
      r.Body = some dataEnc →
      env.fxms.Decrypt session0.key dataEnc Optimization.OptimizeDecryption = (data, true) →
      relayed (HandleTransmit env ht now r).2 = [Event.Request u m [] data r.Header]) ∧
    (∀ (env : Env) (ht : HttpTransmit) (now : Int) (r : Request)
        (session0 : HttpTransmitSession) (headersEnc u m rest : Bytes) (urlParsed : URL)
        (dataEnc data : Bytes),
      ht.sessions.lookup (sessionIdOf env r) = some session0 →
      env.base64_DecodeString (Header.Get env r.Header (ascii "HT-Session-Headers")) =
        some headersEnc →
      ¬ headersEnc.length < env.fxms.HashLen + env.fxms.MaskLen →
      env.fxms.Decrypt session0.key headersEnc Optimization.OptimizeDecryption =
        (u ++ nl :: (m ++ nl :: rest), true) →
      nl ∉ u → nl ∉ m →
      env.url_Parse u = some urlParsed →
      (ht.whitelistedHosts.lookup urlParsed.Host).isSome = true →
      r.Body = some dataEnc →
      env.fxms.Decrypt session0.key dataEnc Optimization.OptimizeDecryption = (data, true) →
      relayed (HandleTransmit env ht now r).2 =
        [Event.Request u m (strings_Split rest nl) data r.Header]) ∧
    (∀ (env : Env) (urlAddr method : Bytes) (headers : List Bytes) (data : Bytes)
        (httpHeaders : Header) (req : OutRequest),
      env.http_NewRequest method urlAddr data = some req →
      (outbound env req headers httpHeaders =
        { Method := req.Method
          URL := req.URL
          Body := req.Body
          Header := Header.Set env (List.foldl (setHeaderLine env) req.Header headers)
            (ascii "X-Forwarded-For")
            (strings_Trim (Header.Get env httpHeaders (ascii "Cf-Connecting-Ip") ++ ascii "," ++
              Header.Get env httpHeaders (ascii "X-Forwarded-For")) (ascii ",")) }) ∧
      (∀ line lines h, List.foldl (setHeaderLine env) h (line :: lines) =
        List.foldl (setHeaderLine env) (setHeaderLine env h line) lines) ∧
      (∀ resp respData, env.http_Do (outbound env req headers httpHeaders) = some resp →
        resp.Body = some respData →
        request env urlAddr method headers data httpHeaders = (resp.StatusCode, respData)) ∧
      (env.http_Do (outbound env req headers httpHeaders) = none →
        request env urlAddr method headers data httpHeaders = (0, []))) ∧
    (∀ (env : Env) (h : Header) (a b : Bytes), ¬ ascii ": " <:+: a →
      setHeaderLine env h (a ++ ascii ": " ++ b) = Header.Set env h a b) ∧
    (∀ (env : Env) (h : Header) (line : Bytes), ¬ ascii ": " <:+: line →
      setHeaderLine env h line = h) ∧
    (strings_Split (ascii "http://allowed.example/path\nGET\n") nl =
        [ascii "http://allowed.example/path", ascii "GET", []] ∧
      ∀ (env : Env) (req : OutRequest) (httpHeaders : Header),
        (outbound env req [[]] httpHeaders).Header =
          Header.Set env req.Header (ascii "X-Forwarded-For")
            (strings_Trim (Header.Get env httpHeaders (ascii "Cf-Connecting-Ip") ++ ascii "," ++
              Header.Get env httpHeaders (ascii "X-Forwarded-For")) (ascii ","))) := by
  refine ⟨?_, ?_, ?_, ?_, ?_, ?_, by decide, ?_⟩
  · intro env ht now r session0 headersEnc h1 h2 hnl
    rcases HandleTransmit_known_cases env ht now r session0 h1 with hs | hv
    · exact hs
    · obtain ⟨headersEnc', urlAddr, method, headers, urlParsed, dataEnc, data, hv⟩ := hv
      obtain ⟨_, h2', _, _, h5, _, _, _, _⟩ := hv
      rw [h2] at h2'
      cases h2'
      rw [strings_Split_no_sep _ nl hnl] at h5
      cases h5
  · intro env ht now r session0 headersEnc u m urlParsed dataEnc data h1 h2 h3 h4 hu hm h6 h7
      h8 h9
    have hsplit : strings_Split (u ++ nl :: m) nl = [u, m] := by
      rw [strings_Split_first u m nl hu, strings_Split_no_sep m nl hm]
    exact HandleTransmit_valid_relayed env ht now r session0 headersEnc u m [] urlParsed dataEnc
      data ⟨h1, h2, h3, by rw [h4], by rw [h4]; exact hsplit, h6, h7, h8, h9⟩
  · intro env ht now r session0 headersEnc u m rest urlParsed dataEnc data h1 h2 h3 h4 hu hm
      h6 h7 h8 h9
    have hsplit : strings_Split (u ++ nl :: (m ++ nl :: rest)) nl =
        u :: m :: strings_Split rest nl := by
      rw [strings_Split_first u _ nl hu, strings_Split_first m rest nl hm]
    exact HandleTransmit_valid_relayed env ht now r session0 headersEnc u m
      (strings_Split rest nl) urlParsed dataEnc data
      ⟨h1, h2, h3, by rw [h4], by rw [h4]; exact hsplit, h6, h7, h8, h9⟩
  · intro env urlAddr method headers data httpHeaders req hreq
    refine ⟨rfl, fun _ _ _ => rfl, ?_, ?_⟩
    · intro resp respData hdo hbody
      rw [request_outbound env urlAddr method headers data httpHeaders req hreq, hdo]
      simp only [hbody]
    · intro hdo
      rw [request_outbound env urlAddr method headers data httpHeaders req hreq, hdo]
  · intro env h a b ha
    rw [ascii_colonSpace] at ha ⊢
    exact setHeaderLine_pair env h a b ha
  · intro env h line hl
    rw [ascii_colonSpace] at hl
    exact setHeaderLine_none env h line hl
  · intro env req httpHeaders
    show Header.Set env (setHeaderLine env req.Header []) _ _ = _
    rw [setHeaderLine_none env req.Header [] (by decide)]

/-- The readings of C10 on the demo relay: the text `GET` is rejected; the text of the
end-to-end scenario is relayed with its URL, method and one empty header line; `request` with
the header lines `A: b`, `C:d`, `E: : f` hands the client a request whose headers are `A` set
to `b` and `E` set to `: f` under the forwarding header, and returns the client's 200 `ok`. -/
theorem headers_text_reading_witness :
    (written (HandleTransmit demoEnv demoRelay1 105 demoNoNewline).2 = [] ∧
      relayed (HandleTransmit demoEnv demoRelay1 105 demoNoNewline).2 = []) ∧
    relayed (HandleTransmit demoEnv demoRelay1 105 demoGet).2 =
      [Event.Request (ascii "http://allowed.example/path") (ascii "GET")
        (strings_Split [] nl) [] demoGet.Header] ∧
    (outbound demoEnv demoOut [ascii "A: b", ascii "C:d", ascii "E: : f"] []).Header =
      [(ascii "X-Forwarded-For", [[]]), (ascii "E", [ascii ": f"]), (ascii "A", [ascii "b"])] ∧
    request demoEnv (ascii "http://allowed.example/path") (ascii "GET")
      [ascii "A: b", ascii "C:d", ascii "E: : f"] [] [] = (200, ascii "ok") ∧
    setHeaderLine demoEnv [] (ascii "A" ++ ascii ": " ++ ascii "b") =
      Header.Set demoEnv [] (ascii "A") (ascii "b") ∧
    setHeaderLine demoEnv [] (ascii "E" ++ ascii ": " ++ ascii ": f") =
      Header.Set demoEnv [] (ascii "E") (ascii ": f") ∧
    setHeaderLine demoEnv [] (ascii "C:d") = [] :=
  ⟨headers_text_reading.1 demoEnv demoRelay1 105 demoNoNewline
      { key := [1, 2], lastUpdate := 100 } (1 :: 0 :: ascii "GET") (by decide) (by decide)
      (by decide),
   headers_text_reading.2.2.1 demoEnv demoRelay1 105 demoGet
      { key := [1, 2], lastUpdate := 100 } (1 :: 0 :: ascii "http://allowed.example/path\nGET\n")
      (ascii "http://allowed.example/path") (ascii "GET") [] { Host := ascii "allowed.example" }
      [1, 0] [] (by decide) (by decide) (by decide) (by decide) (by decide) (by decide)
      (by decide) (by decide) (by decide) (by decide),
   ((headers_text_reading.2.2.2.1 demoEnv (ascii "http://allowed.example/path") (ascii "GET")
      [ascii "A: b", ascii "C:d", ascii "E: : f"] [] [] demoOut rfl).1 ▸ by decide),
   (headers_text_reading.2.2.2.1 demoEnv (ascii "http://allowed.example/path") (ascii "GET")
      [ascii "A: b", ascii "C:d", ascii "E: : f"] [] [] demoOut rfl).2.2.1
      { StatusCode := 200, Body := some (ascii "ok") } (ascii "ok") rfl rfl,
   headers_text_reading.2.2.2.2.1 demoEnv [] (ascii "A") (ascii "b") (by decide),
   headers_text_reading.2.2.2.2.1 demoEnv [] (ascii "E") (ascii ": f") (by decide),
   headers_text_reading.2.2.2.2.2.1 demoEnv [] (ascii "C:d") (by decide)⟩

end Httptransmit
